import Mathlib

/-!
Shallow embedding of the F1-telemetry ETL core (src/etl/data_normalizer.py,
src/etl/data_merger.py, src/etl/driver_matcher.py) and proofs about it.

Python values flowing through the ETL are modelled by the inductive `PyVal`
(None, str, int, float as an exact rational, dict).  Records (Python dicts
with string keys) are association lists in insertion order, with assignment
overwriting the first occurrence of a key, as CPython dicts do.  Python
floats are modelled as exact rationals; NaN and infinities are outside the
model (no claim here depends on them).  Exceptions are modelled with
`Except PyErr`: an operation that can raise for some input shape returns
`Except`, and `.error` marks a propagating Python exception.  Python string
methods are modelled over `List Char`; case mapping covers ASCII plus the
accented letters that appear in the matcher's own replacement table
(CPython's full Unicode case tables are out of scope, as are names of 200
or more characters, where difflib's autojunk heuristic would engage).
-/

namespace F1

/-- Python runtime values used by the ETL core. -/
inductive PyVal where
  | none : PyVal
  | str : String → PyVal
  | int : ℤ → PyVal
  | float : ℚ → PyVal
  | dict : List (String × PyVal) → PyVal

/-- Python exception classes that the modelled code can raise. -/
inductive PyErr where
  | valueError : PyErr
  | typeError : PyErr
  | attributeError : PyErr
deriving DecidableEq

/-- Python truthiness: bool(v). -/
def truthy : PyVal → Bool
  | .none => false
  | .str s => !(s == "")
  | .int n => !(n == 0)
  | .float q => !(q == 0)
  | .dict l => !l.isEmpty

/-- Python `a or b`: the first operand if truthy, otherwise the second. -/
def pyOr (a b : PyVal) : PyVal := if truthy a then a else b

/-- Python `v is None`. -/
def isNoneB : PyVal → Bool
  | .none => true
  | _ => false

/-- Python `==` on the value types in scope.  Ints and floats compare
numerically across the two types.  Dicts are compared structurally (field
order included); the ETL code never compares two dicts, so CPython's
order-insensitive dict equality is not needed on any reachable path. -/
def pyEq : PyVal → PyVal → Bool
  | .none, .none => true
  | .str a, .str b => a == b
  | .int a, .int b => a == b
  | .int a, .float b => (a : ℚ) == b
  | .float a, .int b => a == (b : ℚ)
  | .float a, .float b => a == b
  | .dict a, .dict b => fieldsEq a b
  | _, _ => false
where
  /-- Structural equality of dict field lists. -/
  fieldsEq : List (String × PyVal) → List (String × PyVal) → Bool
  | [], [] => true
  | (k, v) :: a, (k', v') :: b => k == k' && pyEq v v' && fieldsEq a b
  | _, _ => false

/-- A Python dict with string keys, in insertion order. -/
abbrev Record := List (String × PyVal)

/-- First binding of a key, if present (CPython dict lookup). -/
def rfind (r : Record) (k : String) : Option PyVal := List.lookup k r

/-- Python `d.get(k)`: the bound value, or None when the key is absent. -/
def rget (r : Record) (k : String) : PyVal := (rfind r k).getD .none

/-- Python `d[k] = v`: overwrite the first binding of `k`, else append. -/
def rset (r : Record) (k : String) (v : PyVal) : Record :=
  match r with
  | [] => [(k, v)]
  | (k', v') :: rest => if k' == k then (k, v) :: rest else (k', v') :: rset rest k v

/-- Build a dict literal: later duplicate keys overwrite earlier ones,
as in a CPython dict display. -/
def rlit (fields : List (String × PyVal)) : Record :=
  fields.foldl (fun acc p => rset acc p.1 p.2) []

/-- Python `v.split(...)`-style access to a string value: returns the
string, or raises AttributeError for a non-string (a string method was
called on it). -/
def asStr : PyVal → Except PyErr String
  | .str s => .ok s
  | _ => .error .attributeError

/-- Whether an Except computation finished without an exception. -/
def exOk : Except PyErr α → Bool
  | .ok _ => true
  | .error _ => false

/-! ### Character and string helpers (Python str methods over List Char) -/

/-- Whitespace stripped by Python str.strip() / str.split(). -/
def isPySpace (c : Char) : Bool :=
  c == ' ' || c == '\t' || c == '\n' || c == '\r' || c == Char.ofNat 11 || c == Char.ofNat 12

/-- Lowercase mapping: ASCII plus the accented letters in the matcher's
replacement table. -/
def charLower (c : Char) : Char :=
  match c with
  | 'Á' => 'á' | 'À' => 'à' | 'Â' => 'â' | 'Ã' => 'ã' | 'Ä' => 'ä'
  | 'É' => 'é' | 'È' => 'è' | 'Ê' => 'ê' | 'Ë' => 'ë'
  | 'Í' => 'í' | 'Ì' => 'ì' | 'Î' => 'î' | 'Ï' => 'ï'
  | 'Ó' => 'ó' | 'Ò' => 'ò' | 'Ô' => 'ô' | 'Õ' => 'õ' | 'Ö' => 'ö'
  | 'Ú' => 'ú' | 'Ù' => 'ù' | 'Û' => 'û' | 'Ü' => 'ü'
  | 'Ç' => 'ç' | 'Ñ' => 'ñ'
  | _ => c.toLower

/-- Uppercase mapping: ASCII plus the same accented letters. -/
def charUpper (c : Char) : Char :=
  match c with
  | 'á' => 'Á' | 'à' => 'À' | 'â' => 'Â' | 'ã' => 'Ã' | 'ä' => 'Ä'
  | 'é' => 'É' | 'è' => 'È' | 'ê' => 'Ê' | 'ë' => 'Ë'
  | 'í' => 'Í' | 'ì' => 'Ì' | 'î' => 'Î' | 'ï' => 'Ï'
  | 'ó' => 'Ó' | 'ò' => 'Ò' | 'ô' => 'Ô' | 'õ' => 'Õ' | 'ö' => 'Ö'
  | 'ú' => 'Ú' | 'ù' => 'Ù' | 'û' => 'Û' | 'ü' => 'Ü'
  | 'ç' => 'Ç' | 'ñ' => 'Ñ'
  | _ => c.toUpper

/-- Python str.lower(). -/
def lowerStr (s : String) : String := String.mk (s.toList.map charLower)

/-- Python str.upper(). -/
def upperStr (s : String) : String := String.mk (s.toList.map charUpper)

/-- Python str.strip() (no argument: strip whitespace at both ends). -/
def stripChars (l : List Char) : List Char :=
  ((l.dropWhile isPySpace).reverse.dropWhile isPySpace).reverse

/-- Python str.strip() on strings. -/
def stripStr (s : String) : String := String.mk (stripChars s.toList)

/-- Python str.split() with no argument: split on whitespace runs,
dropping empty pieces. -/
def pyWordsList (l : List Char) : List (List Char) :=
  (l.foldr
    (fun c acc =>
      if isPySpace c then [] :: acc
      else
        match acc with
        | [] => [[c]]
        | w :: ws => (c :: w) :: ws)
    []).filter (fun w => !w.isEmpty)

/-- Python str.split() giving strings. -/
def pyWords (s : String) : List String := (pyWordsList s.toList).map String.mk

/-- Whether `pat` is a prefix of `l` (character lists). -/
def isPrefixCh : List Char → List Char → Bool
  | [], _ => true
  | _ :: _, [] => false
  | p :: ps, c :: cs => p == c && isPrefixCh ps cs

/-- Python `pat in s` (substring containment) over character lists. -/
def containsCh (pat : List Char) : List Char → Bool
  | [] => isPrefixCh pat []
  | c :: cs => isPrefixCh pat (c :: cs) || containsCh pat cs

/-- Python `pat in s` on strings. -/
def containsSub (pat s : String) : Bool := containsCh pat.toList s.toList

/-- Numeric value of a list of decimal digits. -/
def natOfDigits (l : List Char) : ℕ :=
  l.foldl (fun acc c => 10 * acc + (c.toNat - '0'.toNat)) 0

/-- Digits-with-underscores tail of a Python int literal: after the first
digit, single underscores may separate digit groups. -/
def intDigitsTail (acc : ℕ) : List Char → Option ℕ
  | [] => some acc
  | '_' :: c :: rest => if c.isDigit then intDigitsTail (10 * acc + (c.toNat - '0'.toNat)) rest else Option.none
  | c :: rest => if c.isDigit then intDigitsTail (10 * acc + (c.toNat - '0'.toNat)) rest else Option.none

/-- Parse the body of Python `int(string)`: optional sign, then digits
(single underscores allowed between digits). -/
def parseIntBody : List Char → Option ℤ
  | '+' :: rest => parseIntCore rest
  | '-' :: rest => (parseIntCore rest).map (fun n => -n)
  | l => parseIntCore l
where
  /-- Unsigned digit sequence. -/
  parseIntCore : List Char → Option ℤ
  | [] => Option.none
  | c :: rest =>
    if c.isDigit then (intDigitsTail (c.toNat - '0'.toNat) rest).map (fun n => (n : ℤ))
    else Option.none

/-- Truncation of a rational toward zero, as Python int(float) does. -/
def ratTrunc (q : ℚ) : ℤ := if 0 ≤ q then ⌊q⌋ else -⌊-q⌋

/-- Python int(v): identity on ints, truncation on floats, and signed
decimal parsing (whitespace stripped) on strings; TypeError on None and
dicts, ValueError on unparseable strings. -/
def pyInt : PyVal → Except PyErr ℤ
  | .int n => .ok n
  | .float q => .ok (ratTrunc q)
  | .str s =>
    match parseIntBody (stripChars s.toList) with
    | some n => .ok n
    | Option.none => .error .valueError
  | .none => .error .typeError
  | .dict _ => .error .typeError

/-! ### DataNormalizer (src/etl/data_normalizer.py)

The normalizer's status table, transcribed key for key from
DataNormalizer.__init__.  Lookup order is CPython dict lookup, i.e. exact
key equality against these keys as written. -/

/-- Status code mappings from DataNormalizer.__init__. -/
def statusMappings : List (String × String) :=
  [("Finished", "Finished"), ("F", "Finished"), ("DNF", "DNF"),
   ("Did not finish", "DNF"), ("Not classified", "DNF"), ("NC", "DNF"),
   ("DNS", "DNS"), ("Did not start", "DNS"), ("DSQ", "DSQ"),
   ("Disqualified", "DSQ"), ("EX", "DSQ"), ("WD", "Withdrew"),
   ("Withdrew", "Withdrew"), ("Retired", "DNF"), ("R", "DNF")]

/-- DataNormalizer.normalize_status: empty input gives "Unknown"; then a
direct table lookup of the stripped, uppercased status; then substring
heuristics; otherwise the stripped original text. -/
def normalizeStatus (status : String) : String :=
  if status == "" then "Unknown"
  else
    let su := upperStr (stripStr status)
    match List.lookup su statusMappings with
    | some v => v
    | Option.none =>
      if containsSub "DNF" su || containsSub "NOT FINISH" su then "DNF"
      else if containsSub "DNS" su || containsSub "NOT START" su then "DNS"
      else if containsSub "DSQ" su || containsSub "DISQUAL" su then "DSQ"
      else if containsSub "FINISH" su || containsSub "COMPLETED" su then "Finished"
      else stripStr status

/-- Python str.isupper(): at least one cased character and no cased
character lowercase (cased is modelled as ASCII alphabetic). -/
def isUpperPy (w : List Char) : Bool :=
  w.any (fun c => c.isAlpha) && w.all (fun c => !c.isAlpha || c.isUpper)

/-- Python str.capitalize(): first character uppercased, the rest
lowercased. -/
def capitalizePy (w : List Char) : List Char :=
  match w with
  | [] => []
  | c :: rest => charUpper c :: rest.map charLower

/-- DataNormalizer.normalize_name on a string: collapse whitespace, then
title-case each word except fully-uppercase words of length at most 3
(preserved abbreviations like F1 or GP). -/
def normalizeNameStr (name : String) : String :=
  if name == "" then ""
  else
    let ws := pyWordsList name.toList
    String.intercalate " "
      (ws.map (fun w =>
        if isUpperPy w && decide (w.length ≤ 3) then String.mk w
        else String.mk (capitalizePy w)))

/-- DataNormalizer.normalize_name applied to a record field value: falsy
input gives the empty string, a truthy non-string raises AttributeError at
name.split(). -/
def normalizeNameV (name : PyVal) : Except PyErr String :=
  if truthy name then do
    let s ← asStr name
    pure (normalizeNameStr s)
  else pure ""

/-- DataNormalizer.normalize_circuit_name: normalize_name, then textual
replacements, then strip. -/
def normalizeCircuitName (name : String) : String :=
  if name == "" then ""
  else
    let n := normalizeNameStr name
    let n := n.replace "Grand Prix" "GP"
    let n := n.replace "International Circuit" "Circuit"
    let n := n.replace "Racing Circuit" "Circuit"
    stripStr n

/-- DataNormalizer.align_lap_number: None passes through; strings keep
only their digits (empty digit string gives None); ints and floats are
truncated to int; other types give None.  NaN (a ValueError in CPython,
caught to None) and infinities are outside the rational float model. -/
def alignLapNumber (lap : PyVal) : Option ℤ :=
  match lap with
  | .none => Option.none
  | .str s =>
    let ds := s.toList.filter Char.isDigit
    if ds.isEmpty then Option.none else some (natOfDigits ds : ℤ)
  | .int n => some n
  | .float q => some (ratTrunc q)
  | .dict _ => Option.none

/-- Match of the time pattern \d+:\d{2}(:\d{2})?(\.\d+)?$ after a leading
\d+ has been consumed is delegated to this tail check. -/
def timeTail (l : List Char) : Bool :=
  match l with
  | [] => true
  | '.' :: rest => !rest.isEmpty && rest.all Char.isDigit
  | ':' :: c :: d :: rest => c.isDigit && d.isDigit && timeFrac rest
  | _ => false
where
  /-- Optional fractional part (\.\d+)? then end. -/
  timeFrac : List Char → Bool
  | [] => true
  | '.' :: rest => !rest.isEmpty && rest.all Char.isDigit
  | _ => false

/-- The regex ^\d+:\d{2}(:\d{2})?(\.\d+)?$ from normalize_time_string. -/
def timePattern (l : List Char) : Bool :=
  let digits := l.takeWhile Char.isDigit
  let rest := l.dropWhile Char.isDigit
  if digits.isEmpty then false
  else
    match rest with
    | ':' :: c :: d :: rest' => c.isDigit && d.isDigit && timeTail rest'
    | _ => false

/-- DataNormalizer.normalize_time_string: strip, drop one leading +, keep
only digits, colon and dot, then validate against the time pattern. -/
def normalizeTimeString (timeStr : String) : Option String :=
  if timeStr == "" then Option.none
  else
    let t := stripChars timeStr.toList
    let t := match t with
      | '+' :: rest => rest
      | l => l
    let t := t.filter (fun c => c.isDigit || c == ':' || c == '.')
    if timePattern t then some (String.mk t) else Option.none

/-- DataNormalizer.normalize_driver_code: strip and uppercase; exactly 3
alphabetic characters pass through; longer codes are cut to their first 3
characters; anything shorter gives None. -/
def normalizeDriverCode (code : String) : Option String :=
  if code == "" then Option.none
  else
    let c := (stripChars code.toList).map charUpper
    if c.length == 3 && c.all Char.isAlpha then some (String.mk c)
    else if decide (3 < c.length) then some (String.mk (c.take 3))
    else Option.none

/-- Tyre compound mappings from normalize_tyre_compound. -/
def tyreMappings : List (String × String) :=
  [("SOFT", "SOFT"), ("MEDIUM", "MEDIUM"), ("HARD", "HARD"),
   ("INTERMEDIATE", "INTERMEDIATE"), ("WET", "WET"),
   ("C1", "C1"), ("C2", "C2"), ("C3", "C3"), ("C4", "C4"), ("C5", "C5"),
   ("SUPERSOFT", "C5"), ("ULTRASOFT", "C5"), ("HYPERSOFT", "C5")]

/-- DataNormalizer.normalize_tyre_compound: strip and uppercase, then look
up the table, defaulting to the uppercased input itself. -/
def normalizeTyreCompound (compound : String) : Option String :=
  if compound == "" then Option.none
  else
    let c := String.mk ((stripChars compound.toList).map charUpper)
    some ((List.lookup c tyreMappings).getD c)

/-- DataNormalizer.normalize_position: None passes through; strings keep
only their digits and are parsed without a positivity check; ints and
floats are truncated and must be strictly positive; other types give
None. -/
def normalizePosition (position : PyVal) : Option ℤ :=
  match position with
  | .none => Option.none
  | .str s =>
    let ds := s.toList.filter Char.isDigit
    if ds.isEmpty then Option.none else some (natOfDigits ds : ℤ)
  | .int n => if 0 < n then some n else Option.none
  | .float q => let p := ratTrunc q; if 0 < p then some p else Option.none
  | .dict _ => Option.none

/-! ### DriverMatcher (src/etl/driver_matcher.py) -/

/-- Accent replacements from _normalize_name_for_matching. -/
def accentReplace (c : Char) : Char :=
  match c with
  | 'á' => 'a' | 'à' => 'a' | 'â' => 'a' | 'ã' => 'a' | 'ä' => 'a'
  | 'é' => 'e' | 'è' => 'e' | 'ê' => 'e' | 'ë' => 'e'
  | 'í' => 'i' | 'ì' => 'i' | 'î' => 'i' | 'ï' => 'i'
  | 'ó' => 'o' | 'ò' => 'o' | 'ô' => 'o' | 'õ' => 'o' | 'ö' => 'o'
  | 'ú' => 'u' | 'ù' => 'u' | 'û' => 'u' | 'ü' => 'u'
  | 'ç' => 'c' | 'ñ' => 'n'
  | _ => c

/-- Whether `suf` is a suffix of `l`. -/
def endsWithCh (suf l : List Char) : Bool := isPrefixCh suf.reverse l.reverse

/-- The regex sub \s+(jr|sr|ii|iii|iv)$ from _normalize_name_for_matching.
It runs after whitespace has been collapsed to single spaces, so the \s+
run is exactly one space; " iii" is tested before " ii" as the regex
anchor forces the longer alternative there. -/
def dropNameSuffix (s : String) : String :=
  let l := s.toList
  let del : ℕ → String := fun n => String.mk (l.take (l.length - n))
  if endsWithCh [' ', 'j', 'r'] l then del 3
  else if endsWithCh [' ', 's', 'r'] l then del 3
  else if endsWithCh [' ', 'i', 'i', 'i'] l then del 4
  else if endsWithCh [' ', 'i', 'i'] l then del 3
  else if endsWithCh [' ', 'i', 'v'] l then del 3
  else s

/-- DriverMatcher._normalize_name_for_matching on a string: lowercase,
collapse whitespace, remove a generational suffix, strip accents, strip. -/
def nnmStr (s : String) : String :=
  let n := String.mk (s.toList.map charLower)
  let n := String.intercalate " " (pyWords n)
  let n := dropNameSuffix n
  let n := String.mk (n.toList.map accentReplace)
  stripStr n

/-- DriverMatcher._normalize_name_for_matching on a field value: falsy
input gives the empty string; a truthy non-string raises AttributeError
at name.lower(). -/
def nnmV (name : PyVal) : Except PyErr String :=
  if truthy name then do
    let s ← asStr name
    pure (nnmStr s)
  else pure ""

/-- Length of the common prefix of two character lists. -/
def runLen : List Char → List Char → ℕ
  | a :: as, b :: bs => if a == b then runLen as bs + 1 else 0
  | _, _ => 0

/-- Longest matching block of difflib.SequenceMatcher (no junk): the
(size, i, j) with maximal size, ties broken by smallest i then smallest
j.  A maximal-size run is automatically maximal as a block. -/
def bestBlock (a b : List Char) : ℕ × ℕ × ℕ :=
  (List.range a.length).foldl
    (fun best i =>
      (List.range b.length).foldl
        (fun best j =>
          let sz := runLen (a.drop i) (b.drop j)
          if best.1 < sz then (sz, i, j) else best)
        best)
    (0, 0, 0)

/-- Total size of the matching blocks of SequenceMatcher
get_matching_blocks: recursively take the longest block and recurse on
both sides.  The fuel bounds the recursion depth; a.length + b.length + 1
always suffices since each recursive call strictly shrinks the total
length. -/
def matchedCount : ℕ → List Char → List Char → ℕ
  | 0, _, _ => 0
  | fuel + 1, a, b =>
    let (sz, i, j) := bestBlock a b
    if sz == 0 then 0
    else
      sz + matchedCount fuel (a.take i) (b.take j) +
        matchedCount fuel (a.drop (i + sz)) (b.drop (j + sz))

/-- SequenceMatcher(None, a, b).ratio() as an exact rational:
2*M/(len(a)+len(b)), and 1 when both are empty. -/
def smScore (a b : List Char) : ℚ :=
  let t := a.length + b.length
  if t == 0 then 1 else (2 * matchedCount (t + 1) a b : ℚ) / (t : ℚ)

/-- DriverMatcher similarity threshold (default 0.85). -/
def simThreshold : ℚ := 85 / 100

/-- DriverMatcher._calculate_similarity: 1.0 on equal normalized names,
otherwise the SequenceMatcher ratio, raised to at least 0.9 when one
normalized name contains the other. -/
def calcSim (name1 name2 : PyVal) : Except PyErr ℚ := do
  let norm1 ← nnmV name1
  let norm2 ← nnmV name2
  if norm1 == norm2 then pure 1
  else
    let sim := smScore norm1.toList norm2.toList
    if containsSub norm1 norm2 || containsSub norm2 norm1 then pure (max sim (9 / 10))
    else pure sim

/-- DriverMatcher._extract_name_parts: all but the last word as forename,
the last word as surname. -/
def extractNameParts (fullName : String) : String × String :=
  let parts := pyWords fullName
  match parts with
  | [] => ("", "")
  | [w] => ("", w)
  | _ => (String.intercalate " " parts.dropLast, parts.getLastD "")

/-- The driver name used by the matcher:
driver_data.get('name') or driver_data.get('full_name') or ''. -/
def nameVal (r : Record) : PyVal := pyOr (rget r "name") (pyOr (rget r "full_name") (.str ""))

/-- driver_data.get('code') or driver_data.get('driver_code'). -/
def codeVal (r : Record) : PyVal := pyOr (rget r "code") (rget r "driver_code")

/-- driver_data.get('number') or driver_data.get('driver_number'). -/
def numberVal (r : Record) : PyVal := pyOr (rget r "number") (rget r "driver_number")

/-- The exact-code loop of match_driver: the driver_id of the first
existing driver whose stored code equals the record's code. -/
def codeScan (c : PyVal) : List Record → Option PyVal
  | [] => Option.none
  | e :: es => if pyEq (rget e "code") c then some (rget e "driver_id") else codeScan c es

/-- The number loop of match_driver: the first existing driver with the
same number whose name is similar enough; the loop keeps scanning past
number matches with low similarity. -/
def numberScan (dn dnum : PyVal) : List Record → Except PyErr (Option PyVal)
  | [] => pure Option.none
  | e :: es =>
    if pyEq (rget e "number") dnum then do
      let sim ← calcSim dn (nameVal e)
      if simThreshold ≤ sim then pure (some (rget e "driver_id"))
      else numberScan dn dnum es
    else numberScan dn dnum es

/-- The fuzzy name loop of match_driver, carrying (best_similarity,
best_match); an existing driver improves the best only when strictly more
similar and at least at the threshold, and empty existing names are
skipped. -/
def nameScan (dn : PyVal) (best : ℚ × PyVal) : List Record → Except PyErr (ℚ × PyVal)
  | [] => pure best
  | e :: es => do
    let en := nameVal e
    if truthy en then do
      let sim ← calcSim dn en
      if best.1 < sim ∧ simThreshold ≤ sim then nameScan dn (sim, rget e "driver_id") es
      else nameScan dn best es
    else nameScan dn best es

/-- DriverMatcher.match_driver: None without a name; otherwise exact code
match first, then number match verified by name similarity, then the best
fuzzy name match (None when nothing reaches the threshold). -/
def matchDriver (driverData : Record) (existingDrivers : List Record) : Except PyErr PyVal :=
  let dn := nameVal driverData
  let dc := codeVal driverData
  let dnum := numberVal driverData
  if !truthy dn then pure .none
  else
    match (if truthy dc then codeScan dc existingDrivers else Option.none) with
    | some v => pure v
    | Option.none => do
      let viaNum ← if truthy dnum then numberScan dn dnum existingDrivers else pure Option.none
      match viaNum with
      | some v => pure v
      | Option.none => do
        let best ← nameScan dn (0, .none) existingDrivers
        pure best.2

/-- Replace the first record satisfying `p` (the Python scan-and-break
update loops); no change when none matches. -/
def updateFirst (p : Record → Bool) (f : Record → Record) : List Record → List Record
  | [] => []
  | u :: us => if p u then f u :: us else u :: updateFirst p f us

/-- The matcher's unified-driver state: the unified list and the next
driver_id counter. -/
abbrev DState := List Record × ℤ

/-- The update branch of create_unified_driver: store the source-specific
id, then fill full_name when it is empty and the record has a name. -/
def driverUpd (src : String) (d : Record) (u : Record) : Record :=
  let u := rset u (src ++ "_id") (pyOr (rget d "id") (rget d "driver_id"))
  if !truthy (rget u "full_name") && truthy (rget d "name") then
    rset u "full_name" (rget d "name")
  else u

/-- The creation branch of create_unified_driver: a new unified driver
record; extracting name parts applies string methods to the name value
(AttributeError on a truthy non-string). -/
def driverCreate (src : String) (counter : ℤ) (d : Record) : Except PyErr Record := do
  let dn := nameVal d
  let s ← asStr dn
  let (fore, sur) := extractNameParts s
  pure (rlit
    [("driver_id", .int counter),
     ("driver_ref", pyOr (rget d "driver_ref") (.str ("driver_" ++ toString counter))),
     ("forename", .str fore),
     ("surname", .str sur),
     ("full_name", dn),
     ("code", codeVal d),
     ("number", numberVal d),
     ("nationality", rget d "nationality"),
     ("date_of_birth", pyOr (rget d "date_of_birth") (rget d "dob")),
     (src ++ "_id", pyOr (rget d "id") (rget d "driver_id"))])

/-- One record of create_unified_driver's inner loop: match against the
unified list, then update the matched driver or create a new one. -/
def driverStep (src : String) (st : DState) (d : Record) : Except PyErr DState := do
  let (unified, counter) := st
  let m ← matchDriver d unified
  if truthy m then
    pure (updateFirst (fun u => pyEq (rget u "driver_id") m) (driverUpd src d) unified, counter)
  else do
    let nd ← driverCreate src counter d
    pure (unified ++ [nd], counter + 1)

/-- The loops of create_unified_driver run from an arbitrary starting
state: sources in the given mapping order (no priority sort here), records
in list order. -/
def createUnifiedFrom (st : DState) (bySource : List (String × List Record)) :
    Except PyErr DState :=
  bySource.foldlM (fun st p => p.2.foldlM (driverStep p.1) st) st

/-- DriverMatcher.create_unified_driver: run the loops from the empty
unified list with the counter at 1. -/
def createUnifiedDriver (bySource : List (String × List Record)) : Except PyErr (List Record) :=
  (createUnifiedFrom ([], 1) bySource).map (fun st => st.1)

/-! ### DataMerger (src/etl/data_merger.py) -/

/-- Source priority table from DataMerger.__init__. -/
def sourcePriorityTable : List (String × ℤ) :=
  [("ergast", 10), ("openf1", 8), ("fastf1", 8), ("fia", 9),
   ("f1com", 7), ("statsf1", 6), ("wikipedia", 3)]

/-- self.source_priority.get(source, 0). -/
def srcPrio (s : String) : ℤ := (List.lookup s sourcePriorityTable).getD 0

/-- Descending-priority order on (source, records) pairs; Python
sorted(..., reverse=True) is the stable sort by this relation. -/
def prioRel (a b : String × List Record) : Prop := srcPrio b.1 ≤ srcPrio a.1

instance : DecidableRel prioRel := fun a b => inferInstanceAs (Decidable (srcPrio b.1 ≤ srcPrio a.1))

/-- sorted(by_source.items(), key=priority, reverse=True): a stable
descending sort, modelled by insertion sort (which is stable). -/
def prioSort (l : List (String × List Record)) : List (String × List Record) :=
  List.insertionSort prioRel l

instance : IsTotal (String × List Record) prioRel :=
  ⟨fun a b => le_total (srcPrio b.1) (srcPrio a.1)⟩

instance : IsTrans (String × List Record) prioRel :=
  ⟨fun _ _ _ hab hbc => le_trans hbc hab⟩

/-- DataMerger.merge_drivers delegates to the matcher. -/
def mergeDrivers (driversBySource : List (String × List Record)) : Except PyErr (List Record) :=
  createUnifiedDriver driversBySource

/-- merge_constructors state: unified list, constructor_id counter,
seen normalized names with their ids. -/
abbrev CState := List Record × ℤ × List (String × ℤ)

/-- One record of merge_constructors' inner loop. -/
def constructorStep (src : String) (st : CState) (c : Record) : Except PyErr CState := do
  let (unified, counter, seen) := st
  let cname := pyOr (rget c "name") (.str "")
  let nn ← normalizeNameV cname
  if nn == "" then pure st
  else
    match List.lookup nn seen with
    | some eid =>
      let upd : Record → Record := fun u =>
        let u := rset u (src ++ "_id") (pyOr (rget c "id") (rget c "constructor_id"))
        if !truthy (rget u "nationality") && truthy (rget c "nationality") then
          rset u "nationality" (rget c "nationality")
        else u
      pure (updateFirst (fun u => pyEq (rget u "constructor_id") (.int eid)) upd unified,
        counter, seen)
    | Option.none =>
      let newc := rlit
        [("constructor_id", .int counter),
         ("constructor_ref", pyOr (rget c "constructor_ref")
            (.str ("constructor_" ++ toString counter))),
         ("name", cname),
         ("nationality", rget c "nationality"),
         (src ++ "_id", pyOr (rget c "id") (rget c "constructor_id"))]
      pure (unified ++ [newc], counter + 1, seen ++ [(nn, counter)])

/-- DataMerger.merge_constructors: sources in descending priority order,
then the per-record loop. -/
def mergeConstructors (constructorsBySource : List (String × List Record)) :
    Except PyErr (List Record) := do
  let st ← (prioSort constructorsBySource).foldlM
    (fun st p => p.2.foldlM (constructorStep p.1) st) ([], 1, [])
  pure st.1

/-- merge_races state: unified list and the (year, round) to race_id
map. -/
abbrev RState := List Record × List ((ℤ × ℤ) × ℤ)

/-- One record of merge_races' inner loop.  int(year) and int(round) can
raise ValueError or TypeError, which propagates. -/
def raceStep (src : String) (st : RState) (race : Record) : Except PyErr RState := do
  let (unified, keyMap) := st
  let year := pyOr (rget race "year") (rget race "season")
  let rnd := rget race "round"
  if !truthy year || !truthy rnd then pure st
  else do
    let y ← pyInt year
    let r ← pyInt rnd
    match List.lookup (y, r) keyMap with
    | some rid =>
      let upd : Record → Record := fun u =>
        let u := if !truthy (rget u "name") && truthy (rget race "name") then
            rset u "name" (rget race "name")
          else u
        let u := if !truthy (rget u "date") && truthy (rget race "date") then
            rset u "date" (rget race "date")
          else u
        rset u (src ++ "_race_id") (pyOr (rget race "id") (rget race "race_id"))
      pure (updateFirst (fun u => pyEq (rget u "race_id") (.int rid)) upd unified, keyMap)
    | Option.none =>
      let circuitRef := match rget race "circuit" with
        | .dict fs => (List.lookup "circuitId" fs).getD .none
        | v => v
      let rid : ℤ := (unified.length : ℤ) + 1
      let newr := rlit
        [("race_id", .int rid), ("year", .int y), ("round", .int r),
         ("name", pyOr (rget race "name") (rget race "raceName")),
         ("date", rget race "date"),
         ("circuit_id", rget race "circuit_id"),
         ("circuit_ref", circuitRef),
         (src ++ "_race_id", pyOr (rget race "id") (rget race "raceId"))]
      -- race_key_map stores unified_race['race_id'], which is rid: the
      -- source key f"{src}_race_id" can never collide with 'race_id'.
      pure (unified ++ [newr], keyMap ++ [((y, r), rid)])

/-- DataMerger.merge_races: sources in descending priority order, then
the per-record loop. -/
def mergeRaces (racesBySource : List (String × List Record)) : Except PyErr (List Record) := do
  let st ← (prioSort racesBySource).foldlM
    (fun st p => p.2.foldlM (raceStep p.1) st) ([], [])
  pure st.1

/-- Descending order on (value, priority) pairs used by
resolve_conflict's sort. -/
def confRel (a b : PyVal × ℤ) : Prop := b.2 ≤ a.2

instance : DecidableRel confRel := fun a b => inferInstanceAs (Decidable (b.2 ≤ a.2))

/-- DataMerger.resolve_conflict: drop pairs whose value is None, stably
sort the rest by priority descending, and return the first value; None
when nothing remains.  Only None is dropped — empty strings and zeros are
kept. -/
def resolveConflict (values : List PyVal) (sourcePriorities : List ℤ) : PyVal :=
  if values.isEmpty then .none
  else
    let valid := (values.zip sourcePriorities).filter (fun p => !isNoneB p.1)
    if valid.isEmpty then .none
    else
      match List.insertionSort confRel valid with
      | [] => .none
      | p :: _ => p.1

/-! ### Specification-side definitions

These definitions state claim-level properties in the spec's own terms, to
be compared with the code-derived definitions above. -/

/-- First pair attaining the maximal priority, in input order. -/
def firstMaxPair : List (PyVal × ℤ) → Option (PyVal × ℤ)
  | [] => Option.none
  | p :: rest =>
    match firstMaxPair rest with
    | Option.none => some p
    | some q => if q.2 ≤ p.2 then some p else some q

/-- Characterization of conflict resolution: among the pairs whose value
is not None, the first-listed value attaining the maximal priority wins;
None when no such pair exists.  This is what a stable descending sort
followed by taking the head computes. -/
def resolveConflictSpec (values : List PyVal) (sourcePriorities : List ℤ) : PyVal :=
  match firstMaxPair ((values.zip sourcePriorities).filter (fun p => !isNoneB p.1)) with
  | Option.none => .none
  | some p => p.1

/-- Whether merge_races can process this record without int() raising:
the record is skipped (falsy year or round), or both convert. -/
def raceRecOk (race : Record) : Bool :=
  let y := pyOr (rget race "year") (rget race "season")
  let rn := rget race "round"
  !truthy y || !truthy rn || (exOk (pyInt y) && exOk (pyInt rn))

/-- Whether every record of every source is safe for merge_races. -/
def racesIntOk (racesBySource : List (String × List Record)) : Bool :=
  racesBySource.all (fun p => p.2.all raceRecOk)

/-- How an update branch may change one unified entity: no key is ever
removed; keys other than the record's own per-source key and the
designated fillable keys keep their values; a fillable key changes only
when it was falsy before. -/
def updOnly (srcKey : String) (fillable : List String) (u u' : Record) : Prop :=
  (∀ key, (rfind u key).isSome → (rfind u' key).isSome) ∧
  (∀ key, key ≠ srcKey → key ∉ fillable → rfind u' key = rfind u key) ∧
  (∀ key, key ∈ fillable → rfind u' key = rfind u key ∨ truthy (rget u key) = false)

/-- Concrete inputs exhibiting the order-sensitivity of merge_drivers:
two sources listed in ascending priority order holding the same driver
with different nationality values. -/
def c6input : List (String × List Record) :=
  [("wikipedia", [[("name", .str "Lewis Hamilton"), ("nationality", .str "GB-wiki")]]),
   ("ergast", [[("name", .str "Lewis Hamilton"), ("nationality", .str "GB")]])]

/-- Two same-name constructor records from one source with different
source ids. -/
def c7input1 : Record := [("name", .str "Ferrari"), ("id", .int 5)]

/-- The later record whose source id overwrites the earlier one. -/
def c7input2 : Record := [("name", .str "Ferrari"), ("id", .int 7)]

/-- Whether a driver record's extracted name (name or full_name) is a
nonempty string — the records for which idempotent re-matching holds. -/
def goodRecB (r : Record) : Bool :=
  match nameVal r with
  | .str s => !(s == "")
  | _ => false

/-- Batch hypothesis for idempotent driver merging: no source is named
"driver" (whose per-source key would overwrite driver_id) and every
record has a nonempty string name. -/
def batchGoodB (bs : List (String × List Record)) : Bool :=
  bs.all (fun p => !(p.1 == "driver") && p.2.all goodRecB)

/-- Well-formedness of a unified driver built from good records: a truthy
driver_id, a nonempty string full_name, and no 'name' key. -/
def invD (u : Record) : Prop :=
  truthy (rget u "driver_id") = true ∧
  (∃ s, s ≠ "" ∧ rget u "full_name" = PyVal.str s) ∧
  rfind u "name" = Option.none

/-- State invariant of create_unified_driver: every unified driver is
well-formed and the id counter is positive. -/
def invS (st : DState) : Prop := (∀ u ∈ st.1, invD u) ∧ 1 ≤ st.2

/-- A persistent reason that a record will re-match some unified driver:
an exact stored-code match, or an established name similarity at or above
the threshold. -/
def matchW (r u : Record) : Prop :=
  (truthy (codeVal r) = true ∧ pyEq (rget u "code") (codeVal r) = true) ∨
  (∃ q, calcSim (nameVal r) (nameVal u) = .ok q ∧ simThreshold ≤ q)

/-! ### General lemmas -/

/-- The head of a stable descending insertion sort is the first pair
attaining the maximal priority. -/
theorem head_insertionSort_firstMax (l : List (PyVal × ℤ)) :
    (List.insertionSort confRel l).head? = firstMaxPair l := by
  induction l with
  | nil => rfl
  | cons p rest ih =>
    rw [List.insertionSort]
    cases h : List.insertionSort confRel rest with
    | nil =>
      have hrest : rest = [] := by
        have := List.length_insertionSort confRel rest
        rw [h] at this
        exact List.length_eq_zero.mp this.symm
      subst hrest
      rfl
    | cons q t =>
      rw [h] at ih
      rw [List.orderedInsert]
      by_cases hc : confRel p q
      · have hc' : q.2 ≤ p.2 := hc
        rw [if_pos hc]
        show some p = firstMaxPair (p :: rest)
        unfold firstMaxPair
        rw [← ih]
        show some p = if q.2 ≤ p.2 then some p else some q
        rw [if_pos hc']
      · have hc' : ¬ q.2 ≤ p.2 := hc
        rw [if_neg hc]
        show some q = firstMaxPair (p :: rest)
        unfold firstMaxPair
        rw [← ih]
        show some q = if q.2 ≤ p.2 then some p else some q
        rw [if_neg hc']

/-! ### Claim C4: normalize_status on "Retired" -/

/-- Claim C4 (code_bug evidence): the code's own status table maps
'Retired' to 'DNF', but normalize_status looks the table up by the
uppercased input, which misses every mixed-case key; so "Retired" falls
through all heuristics and is returned verbatim, while "" still maps to
"Unknown" as claimed. -/
theorem C4_normalize_status_retired :
    normalizeStatus "Retired" = "Retired" ∧ normalizeStatus "" = "Unknown" :=
  ⟨rfl, rfl⟩

/-! ### Claim C9: normalize_position range -/

/-- Claim C9 counterexample: normalize_position("0") returns 0, which is
neither None nor at least 1, because the string branch never checks
positivity. -/
theorem C9_position_zero_cex :
    normalizePosition (PyVal.str "0") = some 0 ∧ ¬ (1 : ℤ) ≤ 0 :=
  ⟨rfl, by decide⟩

/-- Claim C9 as amended: every defined result of normalize_position is a
nonnegative integer, and on numeric (int or float) inputs it is strictly
positive; string inputs can yield 0 since their digits are parsed without
the positivity check. -/
theorem C9_position_range (v : PyVal) (n : ℤ) (h : normalizePosition v = some n) :
    0 ≤ n ∧ (((∃ m, v = PyVal.int m) ∨ (∃ q, v = PyVal.float q)) → 1 ≤ n) := by
  cases v with
  | none => exact absurd h (by simp [normalizePosition])
  | str s =>
    simp only [normalizePosition] at h
    split at h
    · exact absurd h (by simp)
    · refine ⟨?_, ?_⟩
      · injection h with h'
        subst h'
        exact Int.ofNat_nonneg _
      · rintro (⟨m, hm⟩ | ⟨q, hq⟩)
        · exact PyVal.noConfusion hm
        · exact PyVal.noConfusion hq
  | int m =>
    simp only [normalizePosition] at h
    split at h
    next hp =>
      injection h with h'
      subst h'
      exact ⟨le_of_lt hp, fun _ => hp⟩
    next hp => exact absurd h (by simp)
  | float q =>
    simp only [normalizePosition] at h
    split at h
    next hp =>
      injection h with h'
      subst h'
      exact ⟨le_of_lt hp, fun _ => hp⟩
    next hp => exact absurd h (by simp)
  | dict fs => exact absurd h (by simp [normalizePosition])

/-- Witness for C9_position_range at the concrete input 3. -/
theorem C9_position_range_witness :
    0 ≤ (3 : ℤ) ∧ (((∃ m, PyVal.int 3 = PyVal.int m) ∨ (∃ q, PyVal.int 3 = PyVal.float q)) → 1 ≤ (3 : ℤ)) :=
  C9_position_range (PyVal.int 3) 3 rfl

/-! ### Claim C2: resolve_conflict -/

/-- Claim C2 counterexample: an empty-string value is not dropped — it is
kept and, carrying the highest priority, beats the non-empty "x", where
the claim says empty values are dropped and "x" should win. -/
theorem C2_empty_string_kept_cex :
    resolveConflict [PyVal.str "", PyVal.str "x"] [10, 8] = PyVal.str "" ∧
    PyVal.str "" ≠ PyVal.str "x" :=
  ⟨rfl, by simp⟩

/-- Claim C2 as amended: resolve_conflict drops exactly the None entries
(empty strings and zeros are retained), and among the remaining pairs the
first-listed value attaining the maximal priority wins — the stable
descending sort followed by taking the head; None when the value list is
empty or all values are None. -/
theorem C2_resolve_conflict_first_max (values : List PyVal) (sourcePriorities : List ℤ) :
    resolveConflict values sourcePriorities = resolveConflictSpec values sourcePriorities := by
  unfold resolveConflict resolveConflictSpec
  by_cases hv : values.isEmpty = true
  · rw [if_pos hv]
    have : values = [] := List.isEmpty_iff.mp hv
    subst this
    rfl
  · rw [if_neg hv]
    by_cases hval : ((values.zip sourcePriorities).filter (fun p => !isNoneB p.1)).isEmpty = true
    · rw [if_pos hval]
      have : (values.zip sourcePriorities).filter (fun p => !isNoneB p.1) = [] :=
        List.isEmpty_iff.mp hval
      rw [this]
      rfl
    · rw [if_neg hval]
      have hhead := head_insertionSort_firstMax
        ((values.zip sourcePriorities).filter (fun p => !isNoneB p.1))
      cases hs : List.insertionSort confRel
          ((values.zip sourcePriorities).filter (fun p => !isNoneB p.1)) with
      | nil =>
        rw [hs] at hhead
        rw [← hhead]
        rfl
      | cons p t =>
        rw [hs] at hhead
        rw [← hhead]
        rfl

/-! ### Claim C5: exact-code short circuit in match_driver -/

/-- The code loop returns the first hit after skipping misses. -/
theorem codeScan_append_hit (c : PyVal) (es₁ es₂ : List Record) (e : Record)
    (hmiss : ∀ e' ∈ es₁, pyEq (rget e' "code") c = false)
    (hhit : pyEq (rget e "code") c = true) :
    codeScan c (es₁ ++ e :: es₂) = some (rget e "driver_id") := by
  induction es₁ with
  | nil => simp [codeScan, hhit]
  | cons e' es₁ ih =>
    have h' := hmiss e' (List.mem_cons_self e' es₁)
    simp only [List.cons_append, codeScan, h']
    rw [if_neg (by simp [h'])]
    exact ih (fun x hx => hmiss x (List.mem_cons_of_mem e' hx))

/-- Claim C5 counterexample: a record carrying the code "HAM" but no name
is not matched against an existing unified driver with the identical code
— match_driver returns None before reaching the code loop. -/
theorem C5_code_without_name_cex :
    matchDriver [("code", PyVal.str "HAM")]
      [[("driver_id", PyVal.int 1), ("code", PyVal.str "HAM"),
        ("full_name", PyVal.str "Lewis Hamilton")]] = .ok PyVal.none ∧
    (Except.ok PyVal.none : Except PyErr PyVal) ≠ .ok (PyVal.int 1) :=
  ⟨rfl, by simp⟩

/-- Claim C5 as amended: for a record with a truthy extracted name and a
truthy code, if some existing driver stores the identical code then
match_driver returns the driver_id of the first such driver, regardless
of name similarity. -/
theorem C5_exact_code_short_circuit (rec : Record) (es₁ es₂ : List Record) (e : Record)
    (hname : truthy (nameVal rec) = true)
    (hcode : truthy (codeVal rec) = true)
    (hmiss : ∀ e' ∈ es₁, pyEq (rget e' "code") (codeVal rec) = false)
    (hhit : pyEq (rget e "code") (codeVal rec) = true) :
    matchDriver rec (es₁ ++ e :: es₂) = .ok (rget e "driver_id") := by
  unfold matchDriver
  simp [hname, hcode, codeScan_append_hit (codeVal rec) es₁ es₂ e hmiss hhit,
    pure, Except.pure]

/-- Witness for C5_exact_code_short_circuit: a named record whose code
matches the sole existing driver exactly. -/
theorem C5_exact_code_witness :
    matchDriver [("name", PyVal.str "Lewis"), ("code", PyVal.str "HAM")]
      ([] ++ [("driver_id", PyVal.int 2), ("code", PyVal.str "HAM"),
        ("full_name", PyVal.str "Somebody Else")] :: []) =
      .ok (rget [("driver_id", PyVal.int 2), ("code", PyVal.str "HAM"),
        ("full_name", PyVal.str "Somebody Else")] "driver_id") :=
  C5_exact_code_short_circuit _ [] []
    [("driver_id", PyVal.int 2), ("code", PyVal.str "HAM"),
     ("full_name", PyVal.str "Somebody Else")]
    rfl rfl (fun _ hx => absurd hx (List.not_mem_nil _)) rfl

/-! ### Claim C10: the code comparison is raw, case-sensitive equality -/

/-- Claim C10: the exact-code comparison is raw equality on the stored
value — normalize_driver_code is never applied and case is not folded —
so codes that differ only in case do not short-circuit; with an existing
driver that has an empty name, the whole match then returns None. -/
theorem C10_code_match_case_sensitive (n c₁ c₂ : String)
    (hn : n ≠ "") (hc : c₁ ≠ "")
    (hcase : lowerStr c₁ = lowerStr c₂) (hne : c₁ ≠ c₂) :
    matchDriver [("name", PyVal.str n), ("code", PyVal.str c₁)]
      [[("driver_id", PyVal.int 1), ("code", PyVal.str c₂),
        ("full_name", PyVal.str "")]] = .ok PyVal.none := by
  have h1 : (n == "") = false := by simpa using hn
  have h2 : (c₂ == c₁) = false := by
    simp only [beq_eq_false_iff_ne, ne_eq]
    exact fun hcc => hne hcc.symm
  have h3 : (c₁ == "") = false := by simpa using hc
  have e1 : rget [("name", PyVal.str n), ("code", PyVal.str c₁)] "name" = PyVal.str n := rfl
  have e2 : rget [("name", PyVal.str n), ("code", PyVal.str c₁)] "code" = PyVal.str c₁ := rfl
  have e3 : rget [("name", PyVal.str n), ("code", PyVal.str c₁)] "driver_code" = PyVal.none := rfl
  have e4 : rget [("name", PyVal.str n), ("code", PyVal.str c₁)] "full_name" = PyVal.none := rfl
  have e5 : rget [("name", PyVal.str n), ("code", PyVal.str c₁)] "number" = PyVal.none := rfl
  have e6 : rget [("name", PyVal.str n), ("code", PyVal.str c₁)] "driver_number" = PyVal.none := rfl
  have hname : nameVal [("name", PyVal.str n), ("code", PyVal.str c₁)] = PyVal.str n := by
    simp [nameVal, e1, pyOr, truthy, h1]
  have hcodev : codeVal [("name", PyVal.str n), ("code", PyVal.str c₁)] = PyVal.str c₁ := by
    simp [codeVal, e2, e3, pyOr, truthy, h3]
  have hnum : numberVal [("name", PyVal.str n), ("code", PyVal.str c₁)] = PyVal.none := by
    simp [numberVal, e5, e6, pyOr, truthy]
  have htru : truthy (PyVal.str n) = true := by simp [truthy, h1]
  have htru2 : truthy (PyVal.str c₁) = true := by simp [truthy, h3]
  have hscan : codeScan (PyVal.str c₁)
      [[("driver_id", PyVal.int 1), ("code", PyVal.str c₂), ("full_name", PyVal.str "")]]
      = Option.none := by
    have e7 : rget [("driver_id", PyVal.int 1), ("code", PyVal.str c₂), ("full_name", PyVal.str "")] "code" = PyVal.str c₂ := rfl
    simp only [codeScan, e7]
    rw [if_neg (show ¬ pyEq (PyVal.str c₂) (PyVal.str c₁) = true by simp [pyEq, h2])]
  have hns : nameScan (PyVal.str n) (0, PyVal.none)
      [[("driver_id", PyVal.int 1), ("code", PyVal.str c₂), ("full_name", PyVal.str "")]]
      = .ok (0, PyVal.none) := by
    have e8 : nameVal [("driver_id", PyVal.int 1), ("code", PyVal.str c₂), ("full_name", PyVal.str "")] = PyVal.str "" := rfl
    simp [nameScan, e8, truthy, pure, Except.pure]
  unfold matchDriver
  rw [hname, hcodev, hnum]
  simp [htru, htru2, hscan, hns, truthy, Bind.bind, Except.bind, pure, Except.pure]


/-- Witness for C10_code_match_case_sensitive: "ham" versus "HAM". -/
theorem C10_case_sensitive_witness :
    matchDriver [("name", PyVal.str "Lewis"), ("code", PyVal.str "ham")]
      [[("driver_id", PyVal.int 1), ("code", PyVal.str "HAM"),
        ("full_name", PyVal.str "")]] = .ok PyVal.none :=
  C10_code_match_case_sensitive "Lewis" "ham" "HAM" (by decide) (by decide) (by decide) (by decide)

/-! ### Claim C1: exception safety of the core -/

/-- A Bool-valued list predicate is invariant under permutation. -/
theorem perm_all_eq {α : Type} {l l' : List α} (h : l.Perm l') (f : α → Bool) :
    l.all f = l'.all f := by
  by_cases hl : l.all f = true
  · rw [hl]
    symm
    rw [List.all_eq_true] at hl ⊢
    exact fun x hx => hl x (h.mem_iff.mpr hx)
  · have hl' : ¬ l'.all f = true := by
      intro hc
      apply hl
      rw [List.all_eq_true] at hc ⊢
      exact fun x hx => hc x (h.mem_iff.mp hx)
    rw [Bool.not_eq_true] at hl hl'
    rw [hl, hl']

/-- One merge_races record step succeeds exactly when the record is
skipped or both its year and round convert with int(). -/
theorem raceStep_exOk (src : String) (st : RState) (race : Record) :
    exOk (raceStep src st race) = raceRecOk race := by
  unfold raceStep raceRecOk
  by_cases h : (!truthy (pyOr (rget race "year") (rget race "season"))
      || !truthy (rget race "round")) = true
  · simp [h, exOk, pure, Except.pure]
  · rw [Bool.not_eq_true] at h
    cases hy : pyInt (pyOr (rget race "year") (rget race "season")) with
    | error e => simp [h, hy, exOk, Bind.bind, Except.bind]
    | ok y =>
      cases hr : pyInt (rget race "round") with
      | error e => simp [h, hy, hr, exOk, Bind.bind, Except.bind]
      | ok r =>
        simp only [h, if_false, Bool.false_eq_true, hy, hr, Bind.bind, Except.bind, exOk]
        cases List.lookup (y, r) st.2 with
        | none => simp [exOk, pure, Except.pure]
        | some rid => simp [exOk, pure, Except.pure]

/-- The inner merge_races loop succeeds exactly when every record of the
source is safe. -/
theorem foldRaces_exOk (src : String) (races : List Record) (st : RState) :
    exOk (races.foldlM (raceStep src) st) = races.all raceRecOk := by
  induction races generalizing st with
  | nil => simp [List.foldlM, exOk, pure, Except.pure]
  | cons r rs ih =>
    simp only [List.foldlM, List.all_cons]
    cases hs : raceStep src st r with
    | error e =>
      have hr := raceStep_exOk src st r
      rw [hs] at hr
      simp only [exOk] at hr
      simp [Bind.bind, Except.bind, hs, exOk, ← hr]
    | ok st' =>
      have hr := raceStep_exOk src st r
      rw [hs] at hr
      simp only [exOk] at hr
      simp [Bind.bind, Except.bind, hs, ← hr, ih st']

/-- The outer merge_races loop succeeds exactly when every record of
every source is safe. -/
theorem foldSources_exOk (l : List (String × List Record)) (st : RState) :
    exOk (l.foldlM (fun st p => p.2.foldlM (raceStep p.1) st) st)
      = l.all (fun p => p.2.all raceRecOk) := by
  induction l generalizing st with
  | nil => simp [List.foldlM, exOk, pure, Except.pure]
  | cons p ps ih =>
    simp only [List.foldlM, List.all_cons]
    cases hs : p.2.foldlM (raceStep p.1) st with
    | error e =>
      have hf := foldRaces_exOk p.1 p.2 st
      rw [hs] at hf
      simp only [exOk] at hf
      simp [Bind.bind, Except.bind, hs, exOk, ← hf]
    | ok st' =>
      have hf := foldRaces_exOk p.1 p.2 st
      rw [hs] at hf
      simp only [exOk] at hf
      simp [Bind.bind, Except.bind, hs, ← hf, ih st']

/-- Claim C1 counterexample: merge_races propagates a ValueError to its
caller when a record carries a truthy year that int() cannot parse — the
failure is not expressed as a None or empty-result value. -/
theorem C1_merge_races_raises_cex :
    mergeRaces [("ergast", [[("year", PyVal.str "abc"), ("round", PyVal.int 1)]])]
      = .error .valueError :=
  rfl

/-- Claim C1 as amended: merge_races raises exactly on records whose
truthy year or round fails int() conversion — it returns normally if and
only if every record of every source either is skipped (falsy year or
round) or has both values int()-convertible. -/
theorem C1_merge_races_ok_iff (racesBySource : List (String × List Record)) :
    exOk (mergeRaces racesBySource) = racesIntOk racesBySource := by
  unfold mergeRaces racesIntOk prioSort
  have hperm := List.perm_insertionSort prioRel racesBySource
  rw [← perm_all_eq hperm (fun p => p.2.all raceRecOk)]
  rw [← foldSources_exOk (List.insertionSort prioRel racesBySource) ([], [])]
  cases hs : (List.insertionSort prioRel racesBySource).foldlM
      (fun st p => p.2.foldlM (raceStep p.1) st) (([], []) : RState) with
  | error e => simp [Bind.bind, Except.bind, hs, exOk]
  | ok st' => simp [Bind.bind, Except.bind, hs, exOk, pure, Except.pure]

/-! ### Claim C3: records missing their identity field -/

/-- Claim C3 counterexample: a driver record with no extractable name is
not skipped — create_unified_driver seeds a new unified driver from it
(with empty name fields), so the unified list has length 1, not 0. -/
theorem C3_driver_no_name_seeded_cex :
    (createUnifiedDriver [("ergast", [[]])]).map List.length = .ok 1 ∧
    (createUnifiedDriver [("ergast", [[]])]).map List.length ≠ .ok 0 := by
  refine ⟨rfl, ?_⟩
  intro h
  rw [show (createUnifiedDriver [("ergast", [[]])]).map List.length = .ok 1 from rfl] at h
  simp at h

/-- Claim C3 as amended: a constructor record whose normalized name is
empty and a race record with falsy year or round are silently skipped
(the merge state is unchanged), but a driver record with no extractable
name is not skipped — it seeds a new unified driver with empty name
fields. -/
theorem C3_identity_skip :
    (∀ src st rec, normalizeNameV (pyOr (rget rec "name") (.str "")) = .ok "" →
      constructorStep src st rec = .ok st) ∧
    (∀ src st race, (!truthy (pyOr (rget race "year") (rget race "season"))
        || !truthy (rget race "round")) = true →
      raceStep src st race = .ok st) ∧
    (∀ src st rec, nameVal rec = PyVal.str "" →
      ∃ nd, driverStep src st rec = .ok (st.1 ++ [nd], st.2 + 1)) := by
  refine ⟨?_, ?_, ?_⟩
  · intro src st rec h
    obtain ⟨u, c, sn⟩ := st
    simp [constructorStep, h, Bind.bind, Except.bind, pure, Except.pure]
  · intro src st race h
    obtain ⟨u, k⟩ := st
    simp [raceStep, h, pure, Except.pure]
  · intro src st rec h
    obtain ⟨u, c⟩ := st
    have hm : matchDriver rec u = .ok PyVal.none := by
      unfold matchDriver
      rw [h]
      simp [truthy, pure, Except.pure]
    refine ⟨rlit
      [("driver_id", .int c),
       ("driver_ref", pyOr (rget rec "driver_ref") (.str ("driver_" ++ toString c))),
       ("forename", .str ""),
       ("surname", .str ""),
       ("full_name", .str ""),
       ("code", codeVal rec),
       ("number", numberVal rec),
       ("nationality", rget rec "nationality"),
       ("date_of_birth", pyOr (rget rec "date_of_birth") (rget rec "dob")),
       (src ++ "_id", pyOr (rget rec "id") (rget rec "driver_id"))], ?_⟩
    simp [driverStep, hm, Bind.bind, Except.bind, truthy, driverCreate, h, asStr,
      pure, Except.pure, extractNameParts, pyWords, pyWordsList]

/-- Witness for C3_identity_skip: a nameless constructor record and a
roundless race record are skipped; a nameless driver record seeds. -/
theorem C3_identity_skip_witness :
    constructorStep "ergast" ([], 1, []) [("nationality", PyVal.str "IT")] = .ok ([], 1, []) ∧
    raceStep "ergast" ([], []) [("year", PyVal.int 2023)] = .ok ([], []) ∧
    ∃ nd, driverStep "ergast" ([], 1) [] = .ok (([] : List Record) ++ [nd], 1 + 1) :=
  ⟨C3_identity_skip.1 "ergast" ([], 1, []) [("nationality", PyVal.str "IT")] rfl,
   C3_identity_skip.2.1 "ergast" ([], []) [("year", PyVal.int 2023)] rfl,
   C3_identity_skip.2.2 "ergast" ([], 1) [] rfl⟩

/-! ### Claim C6: source processing order -/

/-- Claim C6 counterexample: merge_drivers is order-sensitive — given the
same mapping unsorted (wikipedia first) and pre-sorted by descending
priority (ergast first), the unified driver keeps the nationality of
whichever source was processed first, so the two results differ. -/
theorem C6_driver_order_cex :
    (mergeDrivers c6input).map (List.map (fun r => rget r "nationality"))
      = .ok [PyVal.str "GB-wiki"] ∧
    (mergeDrivers (prioSort c6input)).map (List.map (fun r => rget r "nationality"))
      = .ok [PyVal.str "GB"] ∧
    mergeDrivers c6input ≠ mergeDrivers (prioSort c6input) := by
  have h1 : (mergeDrivers c6input).map (List.map (fun r => rget r "nationality"))
      = .ok [PyVal.str "GB-wiki"] := by with_unfolding_all rfl
  have h2 : (mergeDrivers (prioSort c6input)).map (List.map (fun r => rget r "nationality"))
      = .ok [PyVal.str "GB"] := by with_unfolding_all rfl
  refine ⟨h1, h2, ?_⟩
  intro h
  have hmap := congrArg (Except.map (List.map (fun r => rget r "nationality"))) h
  rw [h1, h2] at hmap
  simp at hmap

/-- Claim C6 as amended: merge_constructors and merge_races sort the
sources by descending priority themselves, so presenting the mapping
already stably sorted gives the same unified collection; merge_drivers
(create_unified_driver) performs no such sort and processes sources in
the mapping's insertion order, so the claim fails for it. -/
theorem C6_presort_invariant (m : List (String × List Record)) :
    mergeConstructors m = mergeConstructors (prioSort m) ∧
    mergeRaces m = mergeRaces (prioSort m) := by
  have hs : prioSort (prioSort m) = prioSort m := by
    unfold prioSort
    exact List.Sorted.insertionSort_eq (List.sorted_insertionSort prioRel m)
  constructor
  · unfold mergeConstructors
    rw [hs]
  · unfold mergeRaces
    rw [hs]

/-! ### Lemmas about record updates -/

/-- Setting a key makes it present with the new value. -/
theorem rfind_rset_self (u : Record) (k : String) (v : PyVal) :
    rfind (rset u k v) k = some v := by
  induction u with
  | nil => simp [rset, rfind, List.lookup]
  | cons p rest ih =>
    obtain ⟨k', v'⟩ := p
    simp only [rset]
    by_cases h : (k' == k) = true
    · rw [if_pos h]
      simp [rfind, List.lookup]
    · rw [if_neg h]
      have h2 : (k == k') = false := by
        rw [beq_eq_false_iff_ne]
        intro he
        subst he
        simp at h
      simp only [rfind, List.lookup, h2]
      exact ih

/-- Setting a key leaves every other key's binding unchanged. -/
theorem rfind_rset_ne (u : Record) (k key : String) (v : PyVal) (h : key ≠ k) :
    rfind (rset u k v) key = rfind u key := by
  have hb : (key == k) = false := by simpa using h
  induction u with
  | nil => simp [rset, rfind, List.lookup, hb]
  | cons p rest ih =>
    obtain ⟨k', v'⟩ := p
    simp only [rset]
    by_cases hk : (k' == k) = true
    · rw [if_pos hk]
      have hkk : k' = k := by simpa using hk
      subst hkk
      simp [rfind, List.lookup, hb]
    · rw [if_neg hk]
      simp only [rfind, List.lookup] at ih ⊢
      by_cases hkey : (key == k') = true
      · simp [hkey]
      · simp only [hkey]
        exact ih

/-- Setting a key never removes a binding. -/
theorem rfind_rset_isSome (u : Record) (k key : String) (v : PyVal)
    (h : (rfind u key).isSome) : (rfind (rset u k v) key).isSome := by
  by_cases hk : key = k
  · subst hk
    rw [rfind_rset_self]
    rfl
  · rw [rfind_rset_ne u k key v hk]
    exact h

/-- A record is updOnly-related to itself. -/
theorem updOnly_refl (sk : String) (fill : List String) (u : Record) :
    updOnly sk fill u u :=
  ⟨fun _ h => h, fun _ _ _ => rfl, fun _ _ => .inl rfl⟩

/-- updateFirst keeps the list length. -/
theorem length_updateFirst (p : Record → Bool) (f : Record → Record) (l : List Record) :
    (updateFirst p f l).length = l.length := by
  induction l with
  | nil => rfl
  | cons u us ih =>
    simp only [updateFirst]
    by_cases h : p u = true
    · rw [if_pos h]
      simp
    · rw [if_neg h]
      simp [ih]

/-- updateFirst relates the old and new lists pointwise: each entry is
either unchanged or rewritten by `f`. -/
theorem forall2_updateFirst {P : Record → Record → Prop} (p : Record → Bool)
    (f : Record → Record) (l : List Record)
    (hrefl : ∀ u, P u u) (hf : ∀ u, P u (f u)) :
    List.Forall₂ P l (updateFirst p f l) := by
  induction l with
  | nil => exact List.Forall₂.nil
  | cons u us ih =>
    simp only [updateFirst]
    by_cases h : p u = true
    · rw [if_pos h]
      exact List.Forall₂.cons (hf u) (List.forall₂_same.mpr (fun x _ => hrefl x))
    · rw [if_neg h]
      exact List.Forall₂.cons (hrefl u) ih

/-- A string ending in "_id" has reversed prefix ['d', 'i', '_']. -/
theorem append_id_suffix (s t : String) (h : s ++ "_id" = t) :
    t.data.reverse.take 3 = ['d', 'i', '_'] := by
  rw [← h, String.data_append]
  show ((s.data ++ ['_', 'i', 'd']).reverse).take 3 = _
  rw [List.reverse_append]
  exact List.take_left ['d', 'i', '_'] s.data.reverse

/-- Appending "_id" is injective on the base. -/
theorem append_id_cancel (s t : String) (h : s ++ "_id" = t ++ "_id") : s = t := by
  have hd : s.data ++ "_id".data = t.data ++ "_id".data := by
    rw [← String.data_append, ← String.data_append, h]
  exact String.ext (List.append_cancel_right hd)

/-- A key built as source ++ "_race_id" is at least 8 characters, so it
differs from every shorter key. -/
theorem append_race_id_ne (s t : String) (hlen : t.data.length < 8) :
    s ++ "_race_id" ≠ t := by
  intro h
  have := congrArg (fun x => x.data.length) h
  simp only [String.data_append] at this
  have h8 : ("_race_id" : String).data.length = 8 := rfl
  simp only [List.length_append, h8] at this
  omega

/-- An update that stores the per-source key and then conditionally fills
one fillable key only changes what updOnly allows.  The guard must imply
that the fillable key was falsy. -/
theorem updOnly_rset_fill (sk fk : String) (hne : sk ≠ fk) (u : Record) (v w : PyVal)
    (b : Bool) (hb : b = true → truthy (rget (rset u sk v) fk) = false) :
    updOnly sk [fk] u (if b then rset (rset u sk v) fk w else rset u sk v) := by
  have hfk : rget (rset u sk v) fk = rget u fk := by
    unfold rget
    rw [rfind_rset_ne u sk fk v (Ne.symm hne)]
  cases b with
  | false =>
    rw [if_neg (by simp)]
    refine ⟨fun key hk => rfind_rset_isSome u sk key v hk, ?_, ?_⟩
    · intro key hks _
      exact rfind_rset_ne u sk key v hks
    · intro key hkf
      have hkey : key = fk := by simpa using hkf
      left
      rw [hkey, rfind_rset_ne u sk fk v (Ne.symm hne)]
  | true =>
    rw [if_pos rfl]
    refine ⟨?_, ?_, ?_⟩
    · intro key hk
      exact rfind_rset_isSome _ fk key w (rfind_rset_isSome u sk key v hk)
    · intro key hks hkf
      have hkey : key ≠ fk := by simpa using hkf
      rw [rfind_rset_ne _ fk key w hkey, rfind_rset_ne u sk key v hks]
    · intro key hkf
      have hkey : key = fk := by simpa using hkf
      right
      rw [hkey, ← hfk]
      exact hb rfl

/-- The merge_races update fills name and date when falsy and then stores
the per-source race key; this is updOnly. -/
theorem updOnly_race_fill (sk : String) (u : Record) (vn vd vs : PyVal)
    (h1 : sk ≠ "name") (h2 : sk ≠ "date") (bn bd : Bool)
    (hbn : bn = true → truthy (rget u "name") = false)
    (hbd : bd = true → truthy (rget (if bn then rset u "name" vn else u) "date") = false) :
    updOnly sk ["name", "date"] u
      (rset (if bd then rset (if bn then rset u "name" vn else u) "date" vd
             else (if bn then rset u "name" vn else u)) sk vs) := by
  set u1 := if bn then rset u "name" vn else u with hu1
  set u2 := if bd then rset u1 "date" vd else u1 with hu2
  have hsome1 : ∀ key, (rfind u key).isSome → (rfind u1 key).isSome := by
    intro key hk
    rw [hu1]
    cases bn with
    | false => simpa using hk
    | true => simpa using rfind_rset_isSome u "name" key vn hk
  have hsome2 : ∀ key, (rfind u1 key).isSome → (rfind u2 key).isSome := by
    intro key hk
    rw [hu2]
    cases bd with
    | false => simpa using hk
    | true => simpa using rfind_rset_isSome u1 "date" key vd hk
  have hother1 : ∀ key, key ≠ "name" → rfind u1 key = rfind u key := by
    intro key hk
    rw [hu1]
    cases bn with
    | false => simp
    | true => simpa using rfind_rset_ne u "name" key vn hk
  have hother2 : ∀ key, key ≠ "date" → rfind u2 key = rfind u1 key := by
    intro key hk
    rw [hu2]
    cases bd with
    | false => simp
    | true => simpa using rfind_rset_ne u1 "date" key vd hk
  refine ⟨?_, ?_, ?_⟩
  · intro key hk
    exact rfind_rset_isSome u2 sk key vs (hsome2 key (hsome1 key hk))
  · intro key hks hkf
    have hkn : key ≠ "name" := by
      intro h
      exact hkf (by rw [h]; exact List.mem_cons_self _ _)
    have hkd : key ≠ "date" := by
      intro h
      apply hkf
      rw [h]
      exact List.mem_cons_of_mem _ (List.mem_cons_self _ _)
    rw [rfind_rset_ne u2 sk key vs hks, hother2 key hkd, hother1 key hkn]
  · intro key hkf
    have : key = "name" ∨ key = "date" := by simpa using hkf
    cases this with
    | inl h =>
      subst h
      cases hbn' : bn with
      | false =>
        left
        rw [rfind_rset_ne u2 sk "name" vs (Ne.symm h1), hother2 "name" (by simp),
          hu1, hbn']
        simp
      | true =>
        right
        exact hbn hbn'
    | inr h =>
      subst h
      cases hbd' : bd with
      | false =>
        left
        rw [rfind_rset_ne u2 sk "date" vs (Ne.symm h2), hu2, hbd']
        simpa using hother1 "date" (by simp)
      | true =>
        right
        have hd := hbd hbd'
        have heq : rget u1 "date" = rget u "date" := by
          unfold rget
          rw [hother1 "date" (by simp)]
        rw [← heq]
        exact hd


/-- Taking the original length of an updateFirst result gives the whole
result. -/
theorem take_length_updateFirst (p : Record → Bool) (f : Record → Record) (l : List Record) :
    (updateFirst p f l).take l.length = updateFirst p f l := by
  rw [← length_updateFirst p f l]
  exact List.take_length (updateFirst p f l)

/-- A per-source key differs from any key not ending in "_id". -/
theorem append_id_ne_of_suffix (s t : String) (ht : t.data.reverse.take 3 ≠ ['d', 'i', '_']) :
    s ++ "_id" ≠ t :=
  fun h => ht (append_id_suffix s t h)

/-! ### Claim C7: update invariants of a merge run -/

/-- Claim C7 counterexample: within one merge_constructors run, the later
same-name record overwrites the earlier record's non-empty per-source id
(ergast_id goes from 5 to 7) — the update neither adds a new field nor
fills an empty one. -/
theorem C7_source_id_overwrite_cex :
    (mergeConstructors [("ergast", [c7input1])]).map (List.map (fun r => rget r "ergast_id"))
      = .ok [PyVal.int 5] ∧
    (mergeConstructors [("ergast", [c7input1, c7input2])]).map
        (List.map (fun r => rget r "ergast_id"))
      = .ok [PyVal.int 7] := by
  constructor
  · with_unfolding_all rfl
  · with_unfolding_all rfl

/-- Claim C7 as amended: in every ok step of the three merge loops, no
unified entity is removed (the old list is a pointwise-evolved prefix of
the new one), no field of an existing entity is ever removed, fields
other than the record's own per-source key change only by filling a falsy
value, and the unified id field never changes — for drivers and
constructors provided no source is named "driver" or "constructor" (such
a source's per-source key would collide with the id key). -/
theorem C7_update_invariants :
    (∀ src st c st', src ≠ "constructor" → constructorStep src st c = .ok st' →
      st.1.length ≤ st'.1.length ∧
      List.Forall₂ (updOnly (src ++ "_id") ["nationality"]) st.1 (st'.1.take st.1.length) ∧
      List.Forall₂ (fun u u' => rfind u' "constructor_id" = rfind u "constructor_id")
        st.1 (st'.1.take st.1.length)) ∧
    (∀ src st race st', raceStep src st race = .ok st' →
      st.1.length ≤ st'.1.length ∧
      List.Forall₂ (updOnly (src ++ "_race_id") ["name", "date"]) st.1 (st'.1.take st.1.length) ∧
      List.Forall₂ (fun u u' => rfind u' "race_id" = rfind u "race_id")
        st.1 (st'.1.take st.1.length)) ∧
    (∀ src st d st', src ≠ "driver" → driverStep src st d = .ok st' →
      st.1.length ≤ st'.1.length ∧
      List.Forall₂ (updOnly (src ++ "_id") ["full_name"]) st.1 (st'.1.take st.1.length) ∧
      List.Forall₂ (fun u u' => rfind u' "driver_id" = rfind u "driver_id")
        st.1 (st'.1.take st.1.length)) := by
  refine ⟨?_, ?_, ?_⟩
  · intro src st c st' hsrc hstep
    have hne : src ++ "_id" ≠ "nationality" := append_id_ne_of_suffix _ _ (by decide)
    have hid : ("constructor_id" : String) ≠ src ++ "_id" := by
      intro h
      exact hsrc (append_id_cancel "constructor" src
        (h : "constructor" ++ "_id" = src ++ "_id")).symm
    obtain ⟨un, cnt, seen⟩ := st
    unfold constructorStep at hstep
    dsimp only at hstep
    cases hnn : normalizeNameV (pyOr (rget c "name") (.str "")) with
    | error e =>
      rw [hnn] at hstep
      simp [Bind.bind, Except.bind] at hstep
    | ok nn =>
      rw [hnn] at hstep
      simp only [Bind.bind, Except.bind] at hstep
      by_cases hempty : (nn == "") = true
      · rw [if_pos hempty] at hstep
        simp only [pure, Except.pure, Except.ok.injEq] at hstep
        subst hstep
        simp only [List.take_length]
        exact ⟨le_refl _,
          List.forall₂_same.mpr (fun u _ => updOnly_refl _ _ u),
          List.forall₂_same.mpr (fun u _ => rfl)⟩
      · rw [if_neg hempty] at hstep
        cases hl : List.lookup nn seen with
        | some eid =>
          rw [hl] at hstep
          simp only [pure, Except.pure, Except.ok.injEq] at hstep
          subst hstep
          simp only []
          rw [take_length_updateFirst]
          have hupd : List.Forall₂ (updOnly (src ++ "_id") ["nationality"]) un
              (updateFirst (fun u => pyEq (rget u "constructor_id") (.int eid))
                (fun u =>
                  let u := rset u (src ++ "_id") (pyOr (rget c "id") (rget c "constructor_id"))
                  if !truthy (rget u "nationality") && truthy (rget c "nationality") then
                    rset u "nationality" (rget c "nationality")
                  else u) un) := by
            apply forall2_updateFirst
            · exact updOnly_refl _ _
            · intro u
              exact updOnly_rset_fill (src ++ "_id") "nationality" hne u _ _ _
                (fun hb => by
                  simp only [Bool.and_eq_true] at hb
                  simpa using hb.1)
          refine ⟨?_, hupd, ?_⟩
          · rw [length_updateFirst]
          · exact hupd.imp (fun {u u'} h => h.2.1 "constructor_id" hid (by decide))
        | none =>
          rw [hl] at hstep
          simp only [pure, Except.pure, Except.ok.injEq] at hstep
          subst hstep
          simp only []
          rw [List.take_left']
          · exact ⟨by simp, List.forall₂_same.mpr (fun u _ => updOnly_refl _ _ u),
              List.forall₂_same.mpr (fun u _ => rfl)⟩
          · rfl
  · intro src st race st' hstep
    have h1 : src ++ "_race_id" ≠ "name" := append_race_id_ne _ _ (by decide)
    have h2 : src ++ "_race_id" ≠ "date" := append_race_id_ne _ _ (by decide)
    have hid : ("race_id" : String) ≠ src ++ "_race_id" := by
      intro h
      exact append_race_id_ne src "race_id" (by decide) h.symm
    obtain ⟨un, km⟩ := st
    unfold raceStep at hstep
    dsimp only at hstep
    by_cases hskip : (!truthy (pyOr (rget race "year") (rget race "season"))
        || !truthy (rget race "round")) = true
    · rw [if_pos hskip] at hstep
      simp only [pure, Except.pure, Except.ok.injEq] at hstep
      subst hstep
      simp only [List.take_length]
      exact ⟨le_refl _,
        List.forall₂_same.mpr (fun u _ => updOnly_refl _ _ u),
        List.forall₂_same.mpr (fun u _ => rfl)⟩
    · rw [if_neg hskip] at hstep
      cases hy : pyInt (pyOr (rget race "year") (rget race "season")) with
      | error e =>
        rw [hy] at hstep
        simp [Bind.bind, Except.bind] at hstep
      | ok y =>
        rw [hy] at hstep
        simp only [Bind.bind, Except.bind] at hstep
        cases hr : pyInt (rget race "round") with
        | error e =>
          rw [hr] at hstep
          simp [Bind.bind, Except.bind] at hstep
        | ok r =>
          rw [hr] at hstep
          simp only [] at hstep
          cases hl : List.lookup (y, r) km with
          | some rid =>
            rw [hl] at hstep
            simp only [pure, Except.pure, Except.ok.injEq] at hstep
            subst hstep
            simp only []
            rw [take_length_updateFirst]
            have hupd : List.Forall₂ (updOnly (src ++ "_race_id") ["name", "date"]) un
                (updateFirst (fun u => pyEq (rget u "race_id") (.int rid))
                  (fun u =>
                    let u := if !truthy (rget u "name") && truthy (rget race "name") then
                        rset u "name" (rget race "name")
                      else u
                    let u := if !truthy (rget u "date") && truthy (rget race "date") then
                        rset u "date" (rget race "date")
                      else u
                    rset u (src ++ "_race_id") (pyOr (rget race "id") (rget race "race_id"))) un) := by
              apply forall2_updateFirst
              · exact updOnly_refl _ _
              · intro u
                exact updOnly_race_fill (src ++ "_race_id") u (rget race "name")
                  (rget race "date") (pyOr (rget race "id") (rget race "race_id")) h1 h2 _ _
                  (fun hb => by
                    simp only [Bool.and_eq_true] at hb
                    simpa using hb.1)
                  (fun hb => by
                    simp only [Bool.and_eq_true] at hb
                    simpa using hb.1)
            refine ⟨?_, hupd, ?_⟩
            · rw [length_updateFirst]
            · exact hupd.imp (fun {u u'} h => h.2.1 "race_id" hid (by decide))
          | none =>
            rw [hl] at hstep
            simp only [pure, Except.pure, Except.ok.injEq] at hstep
            subst hstep
            simp only []
            rw [List.take_left']
            · exact ⟨by simp, List.forall₂_same.mpr (fun u _ => updOnly_refl _ _ u),
                List.forall₂_same.mpr (fun u _ => rfl)⟩
            · rfl
  · intro src st d st' hsrc hstep
    have hne : src ++ "_id" ≠ "full_name" := append_id_ne_of_suffix _ _ (by decide)
    have hid : ("driver_id" : String) ≠ src ++ "_id" := by
      intro h
      exact hsrc (append_id_cancel "driver" src (h : "driver" ++ "_id" = src ++ "_id")).symm
    obtain ⟨un, cnt⟩ := st
    unfold driverStep at hstep
    dsimp only at hstep
    cases hm : matchDriver d un with
    | error e =>
      rw [hm] at hstep
      simp [Bind.bind, Except.bind] at hstep
    | ok m =>
      rw [hm] at hstep
      simp only [Bind.bind, Except.bind] at hstep
      by_cases ht : truthy m = true
      · rw [if_pos ht] at hstep
        simp only [pure, Except.pure, Except.ok.injEq] at hstep
        subst hstep
        simp only []
        rw [take_length_updateFirst]
        have hupd : List.Forall₂ (updOnly (src ++ "_id") ["full_name"]) un
            (updateFirst (fun u => pyEq (rget u "driver_id") m) (driverUpd src d) un) := by
          apply forall2_updateFirst
          · exact updOnly_refl _ _
          · intro u
            exact updOnly_rset_fill (src ++ "_id") "full_name" hne u _ _ _
              (fun hb => by
                simp only [Bool.and_eq_true] at hb
                simpa using hb.1)
        refine ⟨?_, hupd, ?_⟩
        · rw [length_updateFirst]
        · exact hupd.imp (fun {u u'} h => h.2.1 "driver_id" hid (by decide))
      · rw [if_neg ht] at hstep
        cases hc : driverCreate src cnt d with
        | error e =>
          rw [hc] at hstep
          simp [Bind.bind, Except.bind] at hstep
        | ok nd =>
          rw [hc] at hstep
          simp only [Bind.bind, Except.bind, pure, Except.pure, Except.ok.injEq] at hstep
          subst hstep
          simp only []
          rw [List.take_left']
          · exact ⟨by simp, List.forall₂_same.mpr (fun u _ => updOnly_refl _ _ u),
              List.forall₂_same.mpr (fun u _ => rfl)⟩
          · rfl

/-- Witness for C7_update_invariants at concrete skip steps and a
creating driver step. -/
theorem C7_update_invariants_witness :
    ((([] : List Record).length ≤ ([] : List Record).length ∧
      List.Forall₂ (updOnly ("ergast" ++ "_id") ["nationality"]) [] [] ∧
      List.Forall₂ (fun u u' => rfind u' "constructor_id" = rfind u "constructor_id") [] []) ∧
     (([] : List Record).length ≤ ([] : List Record).length ∧
      List.Forall₂ (updOnly ("ergast" ++ "_race_id") ["name", "date"]) [] [] ∧
      List.Forall₂ (fun u u' => rfind u' "race_id" = rfind u "race_id") [] []) ∧
     (([] : List Record).length ≤ ([[("driver_id", PyVal.int 1),
        ("driver_ref", PyVal.str "driver_1"), ("forename", PyVal.str ""),
        ("surname", PyVal.str ""), ("full_name", PyVal.str ""), ("code", PyVal.none),
        ("number", PyVal.none), ("nationality", PyVal.none), ("date_of_birth", PyVal.none),
        ("ergast_id", PyVal.none)]] : List Record).length ∧
      List.Forall₂ (updOnly ("ergast" ++ "_id") ["full_name"]) [] [] ∧
      List.Forall₂ (fun u u' => rfind u' "driver_id" = rfind u "driver_id") [] [])) :=
  ⟨C7_update_invariants.1 "ergast" ([], 1, []) [("nationality", PyVal.str "IT")] ([], 1, [])
      (by decide) rfl,
   C7_update_invariants.2.1 "ergast" ([], []) [("year", PyVal.int 2023)] ([], []) rfl,
   C7_update_invariants.2.2 "ergast" ([], 1) [] ([[("driver_id", PyVal.int 1),
      ("driver_ref", PyVal.str "driver_1"), ("forename", PyVal.str ""),
      ("surname", PyVal.str ""), ("full_name", PyVal.str ""), ("code", PyVal.none),
      ("number", PyVal.none), ("nationality", PyVal.none), ("date_of_birth", PyVal.none),
      ("ergast_id", PyVal.none)]], 2) (by decide) (by with_unfolding_all rfl)⟩

/-! ### Lemmas toward idempotent driver merging (claim C8) -/

/-- A well-formed unified driver's extracted name is its nonempty
full_name. -/
theorem nameVal_of_invD (u : Record) (h : invD u) :
    ∃ s, s ≠ "" ∧ nameVal u = PyVal.str s := by
  obtain ⟨_, ⟨s, hs, hfn⟩, hname⟩ := h
  refine ⟨s, hs, ?_⟩
  unfold nameVal
  rw [show rget u "name" = PyVal.none from by unfold rget; rw [hname]; rfl, hfn]
  simp [pyOr, truthy, hs]

theorem goodRec_nameVal (r : Record) (h : goodRecB r = true) :
    ∃ s, s ≠ "" ∧ nameVal r = PyVal.str s := by
  unfold goodRecB at h
  cases hv : nameVal r with
  | str s =>
    rw [hv] at h
    simp only [Bool.not_eq_true'] at h
    exact ⟨s, by simpa using h, rfl⟩
  | none => rw [hv] at h; simp at h
  | int n => rw [hv] at h; simp at h
  | float q => rw [hv] at h; simp at h
  | dict d => rw [hv] at h; simp at h

theorem calcSim_str_ok (a b : String) : ∃ q, calcSim (PyVal.str a) (PyVal.str b) = .ok q := by
  have hn : ∀ s : String, ∃ t, nnmV (PyVal.str s) = .ok t := by
    intro s
    unfold nnmV
    by_cases h : truthy (PyVal.str s) = true
    · rw [if_pos h]
      exact ⟨nnmStr s, rfl⟩
    · rw [if_neg h]
      exact ⟨"", rfl⟩
  obtain ⟨ta, hta⟩ := hn a
  obtain ⟨tb, htb⟩ := hn b
  unfold calcSim
  rw [hta, htb]
  simp only [Bind.bind, Except.bind]
  by_cases h : (ta == tb) = true
  · rw [if_pos h]
    exact ⟨1, rfl⟩
  · rw [if_neg h]
    by_cases h2 : (containsSub ta tb || containsSub tb ta) = true
    · rw [if_pos h2]
      exact ⟨_, rfl⟩
    · rw [if_neg h2]
      exact ⟨_, rfl⟩

theorem calcSim_self (a : String) : calcSim (PyVal.str a) (PyVal.str a) = .ok 1 := by
  unfold calcSim
  cases hn : nnmV (PyVal.str a) with
  | error e =>
    exfalso
    unfold nnmV at hn
    by_cases h : truthy (PyVal.str a) = true
    · rw [if_pos h] at hn
      simp [Bind.bind, Except.bind, asStr, pure, Except.pure] at hn
    · rw [if_neg h] at hn
      simp [pure, Except.pure] at hn
  | ok t =>
    simp [Bind.bind, Except.bind, pure, Except.pure]

/-- An exhausted code loop means no stored code was equal. -/
theorem codeScan_eq_none (c : PyVal) (es : List Record) (h : codeScan c es = Option.none) :
    ∀ e ∈ es, pyEq (rget e "code") c = false := by
  induction es with
  | nil => intro e he; exact absurd he (List.not_mem_nil e)
  | cons e' es ih =>
    intro e he
    unfold codeScan at h
    by_cases hp : pyEq (rget e' "code") c = true
    · rw [if_pos hp] at h
      exact absurd h (by simp)
    · rw [if_neg hp] at h
      cases List.mem_cons.mp he with
      | inl heq => subst heq; exact Bool.not_eq_true _ ▸ by simpa using hp
      | inr hmem => exact ih h e hmem

theorem codeScan_eq_some (c : PyVal) (es : List Record) (v : PyVal)
    (h : codeScan c es = some v) :
    ∃ e ∈ es, pyEq (rget e "code") c = true ∧ v = rget e "driver_id" := by
  induction es with
  | nil => simp [codeScan] at h
  | cons e' es ih =>
    unfold codeScan at h
    by_cases hp : pyEq (rget e' "code") c = true
    · rw [if_pos hp] at h
      injection h with h'
      exact ⟨e', List.mem_cons_self _ _, hp, h'.symm⟩
    · rw [if_neg hp] at h
      obtain ⟨e, he, h1, h2⟩ := ih h
      exact ⟨e, List.mem_cons_of_mem _ he, h1, h2⟩

theorem codeScan_hit (c : PyVal) (es : List Record) (e : Record)
    (he : e ∈ es) (hp : pyEq (rget e "code") c = true) :
    ∃ v, codeScan c es = some v := by
  induction es with
  | nil => exact absurd he (List.not_mem_nil e)
  | cons e' es ih =>
    unfold codeScan
    by_cases hp' : pyEq (rget e' "code") c = true
    · rw [if_pos hp']
      exact ⟨_, rfl⟩
    · rw [if_neg hp']
      cases List.mem_cons.mp he with
      | inl heq => subst heq; exact absurd hp hp'
      | inr hmem => exact ih hmem

theorem numberScan_ok (dn dnum : PyVal) (nd : String) (hdn : dn = PyVal.str nd)
    (es : List Record) (hes : ∀ e ∈ es, invD e) :
    ∃ res, numberScan dn dnum es = .ok res ∧
      ∀ v, res = some v → ∃ e ∈ es, v = rget e "driver_id" ∧
        ∃ q, calcSim dn (nameVal e) = .ok q ∧ simThreshold ≤ q := by
  induction es with
  | nil => exact ⟨Option.none, rfl, fun v hv => by simp at hv⟩
  | cons e' es ih =>
    have hinv := hes e' (List.mem_cons_self _ _)
    obtain ⟨se, hse, hnve⟩ := nameVal_of_invD e' hinv
    obtain ⟨q, hq⟩ := calcSim_str_ok nd se
    have hsim : calcSim dn (nameVal e') = .ok q := by rw [hdn, hnve]; exact hq
    obtain ⟨res, hres, hmem⟩ := ih (fun e he => hes e (List.mem_cons_of_mem _ he))
    unfold numberScan
    by_cases hnum : pyEq (rget e' "number") dnum = true
    · rw [if_pos hnum]
      rw [hsim]
      simp only [Bind.bind, Except.bind]
      by_cases hth : simThreshold ≤ q
      · rw [if_pos hth]
        refine ⟨some (rget e' "driver_id"), rfl, ?_⟩
        intro v hv
        injection hv with hv'
        exact ⟨e', List.mem_cons_self _ _, hv'.symm, q, hsim, hth⟩
      · rw [if_neg hth]
        refine ⟨res, hres, ?_⟩
        intro v hv
        obtain ⟨e, he, h1, h2⟩ := hmem v hv
        exact ⟨e, List.mem_cons_of_mem _ he, h1, h2⟩
    · rw [if_neg hnum]
      refine ⟨res, hres, ?_⟩
      intro v hv
      obtain ⟨e, he, h1, h2⟩ := hmem v hv
      exact ⟨e, List.mem_cons_of_mem _ he, h1, h2⟩

/-- The fuzzy name loop never raises over well-formed drivers, and any
improvement it returns is backed by a driver with similarity at the
threshold. -/
theorem nameScan_ok (dn : PyVal) (nd : String) (hdn : dn = PyVal.str nd)
    (es : List Record) (hes : ∀ e ∈ es, invD e) (b : ℚ × PyVal) :
    ∃ p, nameScan dn b es = .ok p ∧
      (p = b ∨ ∃ e ∈ es, p.2 = rget e "driver_id" ∧
        ∃ q, calcSim dn (nameVal e) = .ok q ∧ simThreshold ≤ q) := by
  induction es generalizing b with
  | nil => exact ⟨b, rfl, .inl rfl⟩
  | cons e' es ih =>
    have hinv := hes e' (List.mem_cons_self _ _)
    obtain ⟨se, hse, hnve⟩ := nameVal_of_invD e' hinv
    obtain ⟨q, hq⟩ := calcSim_str_ok nd se
    have hsim : calcSim dn (nameVal e') = .ok q := by rw [hdn, hnve]; exact hq
    have htru : truthy (nameVal e') = true := by rw [hnve]; simp [truthy, hse]
    unfold nameScan
    simp only [htru, if_true, hsim, Bind.bind, Except.bind]
    by_cases hcond : (b.1 < q ∧ simThreshold ≤ q)
    · rw [if_pos hcond]
      obtain ⟨p, hp, hmem⟩ := ih (fun e he => hes e (List.mem_cons_of_mem _ he))
        (q, rget e' "driver_id")
      refine ⟨p, hp, ?_⟩
      cases hmem with
      | inl heq =>
        exact .inr ⟨e', List.mem_cons_self _ _, by rw [heq], q, hsim, hcond.2⟩
      | inr hmem =>
        obtain ⟨e, he, h1, h2⟩ := hmem
        exact .inr ⟨e, List.mem_cons_of_mem _ he, h1, h2⟩
    · rw [if_neg hcond]
      obtain ⟨p, hp, hmem⟩ := ih (fun e he => hes e (List.mem_cons_of_mem _ he)) b
      refine ⟨p, hp, ?_⟩
      cases hmem with
      | inl heq => exact .inl heq
      | inr hmem =>
        obtain ⟨e, he, h1, h2⟩ := hmem
        exact .inr ⟨e, List.mem_cons_of_mem _ he, h1, h2⟩

theorem nameScan_keep (dn : PyVal) (nd : String) (hdn : dn = PyVal.str nd)
    (es : List Record) (hes : ∀ e ∈ es, invD e) (b : ℚ × PyVal)
    (hb1 : simThreshold ≤ b.1) (hb2 : truthy b.2 = true) :
    ∃ p, nameScan dn b es = .ok p ∧ simThreshold ≤ p.1 ∧ truthy p.2 = true := by
  induction es generalizing b with
  | nil => exact ⟨b, rfl, hb1, hb2⟩
  | cons e' es ih =>
    have hinv := hes e' (List.mem_cons_self _ _)
    obtain ⟨se, hse, hnve⟩ := nameVal_of_invD e' hinv
    obtain ⟨q, hq⟩ := calcSim_str_ok nd se
    have hsim : calcSim dn (nameVal e') = .ok q := by rw [hdn, hnve]; exact hq
    have htru : truthy (nameVal e') = true := by rw [hnve]; simp [truthy, hse]
    unfold nameScan
    simp only [htru, if_true, hsim, Bind.bind, Except.bind]
    by_cases hcond : (b.1 < q ∧ simThreshold ≤ q)
    · rw [if_pos hcond]
      exact ih (fun e he => hes e (List.mem_cons_of_mem _ he)) (q, rget e' "driver_id")
        hcond.2 hinv.1
    · rw [if_neg hcond]
      exact ih (fun e he => hes e (List.mem_cons_of_mem _ he)) b hb1 hb2

theorem nameScan_witness (dn : PyVal) (nd : String) (hdn : dn = PyVal.str nd)
    (es : List Record) (hes : ∀ e ∈ es, invD e) (u : Record) (hu : u ∈ es)
    (q : ℚ) (hq : calcSim dn (nameVal u) = .ok q) (hth : simThreshold ≤ q)
    (b : ℚ × PyVal) (hP : simThreshold ≤ b.1 → truthy b.2 = true) :
    ∃ p, nameScan dn b es = .ok p ∧ simThreshold ≤ p.1 ∧ truthy p.2 = true := by
  induction es generalizing b with
  | nil => exact absurd hu (List.not_mem_nil u)
  | cons e' es ih =>
    have hinv := hes e' (List.mem_cons_self _ _)
    obtain ⟨se, hse, hnve⟩ := nameVal_of_invD e' hinv
    obtain ⟨qe, hqe⟩ := calcSim_str_ok nd se
    have hsim : calcSim dn (nameVal e') = .ok qe := by rw [hdn, hnve]; exact hqe
    have htru : truthy (nameVal e') = true := by rw [hnve]; simp [truthy, hse]
    unfold nameScan
    simp only [htru, if_true, hsim, Bind.bind, Except.bind]
    cases List.mem_cons.mp hu with
    | inl heq =>
      subst heq
      have hq' : qe = q := by
        rw [hq] at hsim
        injection hsim with h'
        exact h'.symm
      subst hq'
      by_cases hcond : (b.1 < qe ∧ simThreshold ≤ qe)
      · rw [if_pos hcond]
        exact nameScan_keep dn nd hdn es (fun e he => hes e (List.mem_cons_of_mem _ he))
          (qe, rget u "driver_id") hth hinv.1
      · rw [if_neg hcond]
        have hble : qe ≤ b.1 := by
          by_contra hlt
          exact hcond ⟨lt_of_not_le hlt, hth⟩
        have hbth : simThreshold ≤ b.1 := le_trans hth hble
        exact nameScan_keep dn nd hdn es (fun e he => hes e (List.mem_cons_of_mem _ he))
          b hbth (hP hbth)
    | inr hmem =>
      by_cases hcond : (b.1 < qe ∧ simThreshold ≤ qe)
      · rw [if_pos hcond]
        exact ih (fun e he => hes e (List.mem_cons_of_mem _ he)) hmem
          (qe, rget e' "driver_id") (fun _ => hinv.1)
      · rw [if_neg hcond]
        exact ih (fun e he => hes e (List.mem_cons_of_mem _ he)) hmem b hP

/-- match_driver with a truthy name, reshaped for case analysis. -/
theorem matchDriver_eq (r : Record) (es : List Record) (htru : truthy (nameVal r) = true) :
    matchDriver r es =
      (match (if truthy (codeVal r) then codeScan (codeVal r) es else Option.none) with
      | some v => .ok v
      | Option.none => do
        let viaNum ← if truthy (numberVal r) then numberScan (nameVal r) (numberVal r) es
          else pure Option.none
        match viaNum with
        | some v => pure v
        | Option.none => do
          let best ← nameScan (nameVal r) (0, .none) es
          pure best.2) := by
  unfold matchDriver
  simp only [htru, Bool.not_true, Bool.false_eq_true, if_false]
  rfl

theorem matchDriver_ok (r : Record) (es : List Record) (hes : ∀ e ∈ es, invD e)
    (hgood : goodRecB r = true) :
    ∃ m, matchDriver r es = .ok m ∧
      (truthy m = true → ∃ u ∈ es, matchW r u) ∧
      ((∃ u ∈ es, matchW r u) → truthy m = true) := by
  obtain ⟨s, hs, hnv⟩ := goodRec_nameVal r hgood
  have htru : truthy (nameVal r) = true := by rw [hnv]; simp [truthy, hs]
  rw [matchDriver_eq r es htru]
  by_cases hdc : truthy (codeVal r) = true
  · rw [if_pos hdc]
    cases hcs : codeScan (codeVal r) es with
    | some v =>
      obtain ⟨e, he, hpe, hve⟩ := codeScan_eq_some _ es v hcs
      refine ⟨v, rfl, fun _ => ⟨e, he, .inl ⟨hdc, hpe⟩⟩, fun _ => ?_⟩
      rw [hve]
      exact (hes e he).1
    | none =>
      -- fall through to number and name scans
      obtain ⟨res, hres, hmem⟩ := numberScan_ok (nameVal r) (numberVal r) s hnv es hes
      by_cases hdnum : truthy (numberVal r) = true
      · rw [if_pos hdnum]
        cases hresv : res with
        | some v =>
          rw [hresv] at hres hmem
          rw [hres]
          simp only [Bind.bind, Except.bind]
          obtain ⟨e, he, hve, hq⟩ := hmem v rfl
          refine ⟨v, rfl, fun _ => ⟨e, he, .inr hq⟩, fun _ => ?_⟩
          rw [hve]
          exact (hes e he).1
        | none =>
          rw [hresv] at hres
          rw [hres]
          simp only [Bind.bind, Except.bind]
          obtain ⟨p, hp, hprov⟩ := nameScan_ok (nameVal r) s hnv es hes (0, .none)
          rw [hp]
          refine ⟨p.2, rfl, ?_, ?_⟩
          · intro htp
            cases hprov with
            | inl heq =>
              rw [heq] at htp
              simp [truthy] at htp
            | inr hw =>
              obtain ⟨e, he, h1, hq⟩ := hw
              exact ⟨e, he, .inr hq⟩
          · rintro ⟨u, hu, hw⟩
            cases hw with
            | inl hcode =>
              exact absurd (codeScan_eq_none _ es hcs u hu) (by simp [hcode.2])
            | inr hsimw =>
              obtain ⟨q, hq, hth⟩ := hsimw
              obtain ⟨p', hp', h1, h2⟩ := nameScan_witness (nameVal r) s hnv es hes u hu q hq hth
                (0, .none) (fun hc => absurd hc (by norm_num [simThreshold]))
              rw [hp] at hp'
              injection hp' with hpp
              rw [hpp]
              exact h2
      · rw [if_neg hdnum]
        simp only [Bind.bind, Except.bind, pure, Except.pure]
        obtain ⟨p, hp, hprov⟩ := nameScan_ok (nameVal r) s hnv es hes (0, .none)
        rw [hp]
        refine ⟨p.2, rfl, ?_, ?_⟩
        · intro htp
          cases hprov with
          | inl heq =>
            rw [heq] at htp
            simp [truthy] at htp
          | inr hw =>
            obtain ⟨e, he, h1, hq⟩ := hw
            exact ⟨e, he, .inr hq⟩
        · rintro ⟨u, hu, hw⟩
          cases hw with
          | inl hcode =>
            exact absurd (codeScan_eq_none _ es hcs u hu) (by simp [hcode.2])
          | inr hsimw =>
            obtain ⟨q, hq, hth⟩ := hsimw
            obtain ⟨p', hp', h1, h2⟩ := nameScan_witness (nameVal r) s hnv es hes u hu q hq hth
              (0, .none) (fun hc => absurd hc (by norm_num [simThreshold]))
            rw [hp] at hp'
            injection hp' with hpp
            rw [hpp]
            exact h2
  · rw [if_neg hdc]
    obtain ⟨res, hres, hmem⟩ := numberScan_ok (nameVal r) (numberVal r) s hnv es hes
    by_cases hdnum : truthy (numberVal r) = true
    · rw [if_pos hdnum]
      cases hresv : res with
      | some v =>
        rw [hresv] at hres hmem
        rw [hres]
        simp only [Bind.bind, Except.bind]
        obtain ⟨e, he, hve, hq⟩ := hmem v rfl
        refine ⟨v, rfl, fun _ => ⟨e, he, .inr hq⟩, fun _ => ?_⟩
        rw [hve]
        exact (hes e he).1
      | none =>
        rw [hresv] at hres
        rw [hres]
        simp only [Bind.bind, Except.bind]
        obtain ⟨p, hp, hprov⟩ := nameScan_ok (nameVal r) s hnv es hes (0, .none)
        rw [hp]
        refine ⟨p.2, rfl, ?_, ?_⟩
        · intro htp
          cases hprov with
          | inl heq =>
            rw [heq] at htp
            simp [truthy] at htp
          | inr hw =>
            obtain ⟨e, he, h1, hq⟩ := hw
            exact ⟨e, he, .inr hq⟩
        · rintro ⟨u, hu, hw⟩
          cases hw with
          | inl hcode => exact absurd hcode.1 hdc
          | inr hsimw =>
            obtain ⟨q, hq, hth⟩ := hsimw
            obtain ⟨p', hp', h1, h2⟩ := nameScan_witness (nameVal r) s hnv es hes u hu q hq hth
              (0, .none) (fun hc => absurd hc (by norm_num [simThreshold]))
            rw [hp] at hp'
            injection hp' with hpp
            rw [hpp]
            exact h2
    · rw [if_neg hdnum]
      simp only [Bind.bind, Except.bind, pure, Except.pure]
      obtain ⟨p, hp, hprov⟩ := nameScan_ok (nameVal r) s hnv es hes (0, .none)
      rw [hp]
      refine ⟨p.2, rfl, ?_, ?_⟩
      · intro htp
        cases hprov with
        | inl heq =>
          rw [heq] at htp
          simp [truthy] at htp
        | inr hw =>
          obtain ⟨e, he, h1, hq⟩ := hw
          exact ⟨e, he, .inr hq⟩
      · rintro ⟨u, hu, hw⟩
        cases hw with
        | inl hcode => exact absurd hcode.1 hdc
        | inr hsimw =>
          obtain ⟨q, hq, hth⟩ := hsimw
          obtain ⟨p', hp', h1, h2⟩ := nameScan_witness (nameVal r) s hnv es hes u hu q hq hth
            (0, .none) (fun hc => absurd hc (by norm_num [simThreshold]))
          rw [hp] at hp'
          injection hp' with hpp
          rw [hpp]
          exact h2

/-- Updating a well-formed unified driver stores only the per-source key:
code, full_name, name and driver_id are untouched (the full_name fill is
disabled because full_name is already nonempty). -/
theorem driverUpd_fields (src : String) (d u : Record) (hsrc : src ≠ "driver") (hinv : invD u) :
    rfind (driverUpd src d u) "code" = rfind u "code" ∧
    rfind (driverUpd src d u) "full_name" = rfind u "full_name" ∧
    rfind (driverUpd src d u) "name" = rfind u "name" ∧
    rfind (driverUpd src d u) "driver_id" = rfind u "driver_id" := by
  have hc : ("code" : String) ≠ src ++ "_id" := Ne.symm (append_id_ne_of_suffix _ _ (by decide))
  have hf : ("full_name" : String) ≠ src ++ "_id" :=
    Ne.symm (append_id_ne_of_suffix _ _ (by decide))
  have hn : ("name" : String) ≠ src ++ "_id" := Ne.symm (append_id_ne_of_suffix _ _ (by decide))
  have hd : ("driver_id" : String) ≠ src ++ "_id" := by
    intro h
    exact hsrc (append_id_cancel "driver" src (h : "driver" ++ "_id" = src ++ "_id")).symm
  obtain ⟨_, ⟨s, hs, hfn⟩, _⟩ := hinv
  unfold driverUpd
  have hfn1 : rget (rset u (src ++ "_id") (pyOr (rget d "id") (rget d "driver_id"))) "full_name"
      = rget u "full_name" := by
    unfold rget
    rw [rfind_rset_ne _ _ _ _ hf]
  have hguard : (!truthy (rget (rset u (src ++ "_id") (pyOr (rget d "id") (rget d "driver_id")))
      "full_name") && truthy (rget d "name")) = false := by
    rw [hfn1, hfn]
    simp [truthy, hs]
  simp only [hguard, Bool.false_eq_true, if_false]
  exact ⟨rfind_rset_ne _ _ _ _ hc, rfind_rset_ne _ _ _ _ hf,
    rfind_rset_ne _ _ _ _ hn, rfind_rset_ne _ _ _ _ hd⟩

theorem matchW_congr (r₀ u u' : Record)
    (hc : rfind u' "code" = rfind u "code")
    (hf : rfind u' "full_name" = rfind u "full_name")
    (hn : rfind u' "name" = rfind u "name") :
    matchW r₀ u → matchW r₀ u' := by
  have hcv : rget u' "code" = rget u "code" := by unfold rget; rw [hc]
  have hnv : nameVal u' = nameVal u := by unfold nameVal rget; rw [hf, hn]
  intro h
  cases h with
  | inl h => exact .inl ⟨h.1, by rw [hcv]; exact h.2⟩
  | inr h => exact .inr (by rw [hnv]; exact h)

theorem invD_congr (u u' : Record)
    (hf : rfind u' "full_name" = rfind u "full_name")
    (hn : rfind u' "name" = rfind u "name")
    (hd : rfind u' "driver_id" = rfind u "driver_id") :
    invD u → invD u' := by
  intro ⟨h1, h2, h3⟩
  refine ⟨?_, ?_, ?_⟩
  · unfold rget
    rw [hd]
    exact h1
  · unfold rget
    rw [hf]
    exact h2
  · rw [hn]
    exact h3

theorem updateFirst_all {Q : Record → Prop} (p : Record → Bool) (f : Record → Record)
    (l : List Record) (hl : ∀ u ∈ l, Q u) (hf : ∀ u ∈ l, Q u → Q (f u)) :
    ∀ u' ∈ updateFirst p f l, Q u' := by
  induction l with
  | nil => intro u' hu'; exact absurd hu' (List.not_mem_nil u')
  | cons u us ih =>
    intro u' hu'
    unfold updateFirst at hu'
    by_cases hp : p u = true
    · rw [if_pos hp] at hu'
      cases List.mem_cons.mp hu' with
      | inl heq =>
        subst heq
        exact hf u (List.mem_cons_self _ _) (hl u (List.mem_cons_self _ _))
      | inr hmem => exact hl u' (List.mem_cons_of_mem _ hmem)
    · rw [if_neg hp] at hu'
      cases List.mem_cons.mp hu' with
      | inl heq => subst heq; exact hl u' (List.mem_cons_self _ _)
      | inr hmem =>
        exact ih (fun x hx => hl x (List.mem_cons_of_mem _ hx))
          (fun x hx => hf x (List.mem_cons_of_mem _ hx)) u' hmem

theorem updateFirst_mem {R : Record → Record → Prop} (p : Record → Bool) (f : Record → Record)
    (l : List Record) (hrefl : ∀ u ∈ l, R u u) (hf : ∀ u ∈ l, R u (f u)) :
    ∀ u ∈ l, ∃ u' ∈ updateFirst p f l, R u u' := by
  induction l with
  | nil => intro u hu; exact absurd hu (List.not_mem_nil u)
  | cons u₀ us ih =>
    intro u hu
    unfold updateFirst
    by_cases hp : p u₀ = true
    · rw [if_pos hp]
      cases List.mem_cons.mp hu with
      | inl heq =>
        subst heq
        exact ⟨f u, List.mem_cons_self _ _, hf u (List.mem_cons_self _ _)⟩
      | inr hmem =>
        exact ⟨u, List.mem_cons_of_mem _ hmem, hrefl u (List.mem_cons_of_mem _ hmem)⟩
    · rw [if_neg hp]
      cases List.mem_cons.mp hu with
      | inl heq =>
        subst heq
        exact ⟨u, List.mem_cons_self _ _, hrefl u (List.mem_cons_self _ _)⟩
      | inr hmem =>
        obtain ⟨u', hu', hr⟩ := ih (fun x hx => hrefl x (List.mem_cons_of_mem _ hx))
          (fun x hx => hf x (List.mem_cons_of_mem _ hx)) u hmem
        exact ⟨u', List.mem_cons_of_mem _ hu', hr⟩

/-- rget through a known rfind result. -/
theorem rget_of_rfind_some (u : Record) (k : String) (v : PyVal) (h : rfind u k = some v) :
    rget u k = v := by
  unfold rget
  rw [h]
  rfl

theorem rget_of_rfind_none (u : Record) (k : String) (h : rfind u k = Option.none) :
    rget u k = PyVal.none := by
  unfold rget
  rw [h]
  rfl

theorem rfind_foldl_rset_ne (fields : List (String × PyVal)) (acc : Record) (k : String)
    (h : ∀ p ∈ fields, p.1 ≠ k) :
    rfind (fields.foldl (fun a p => rset a p.1 p.2) acc) k = rfind acc k := by
  induction fields generalizing acc with
  | nil => rfl
  | cons p ps ih =>
    simp only [List.foldl_cons]
    rw [ih (rset acc p.1 p.2) (fun q hq => h q (List.mem_cons_of_mem _ hq))]
    exact rfind_rset_ne acc p.1 k p.2 (fun he => h p (List.mem_cons_self _ _) he.symm)

theorem driverCreate_fields (src : String) (cnt : ℤ) (v1 v2 v3 v4 v5 v6 dn : PyVal)
    (fore sur : String) (hsrc : src ≠ "driver") :
    rget (rlit
        [("driver_id", PyVal.int cnt), ("driver_ref", v1),
         ("forename", PyVal.str fore), ("surname", PyVal.str sur),
         ("full_name", dn), ("code", v2), ("number", v3),
         ("nationality", v4), ("date_of_birth", v5),
         (src ++ "_id", v6)]) "driver_id" = PyVal.int cnt ∧
    rget (rlit
        [("driver_id", PyVal.int cnt), ("driver_ref", v1),
         ("forename", PyVal.str fore), ("surname", PyVal.str sur),
         ("full_name", dn), ("code", v2), ("number", v3),
         ("nationality", v4), ("date_of_birth", v5),
         (src ++ "_id", v6)]) "full_name" = dn ∧
    rfind (rlit
        [("driver_id", PyVal.int cnt), ("driver_ref", v1),
         ("forename", PyVal.str fore), ("surname", PyVal.str sur),
         ("full_name", dn), ("code", v2), ("number", v3),
         ("nationality", v4), ("date_of_birth", v5),
         (src ++ "_id", v6)]) "name" = Option.none := by
  have hskid : src ++ "_id" ≠ "driver_id" := by
    intro h
    exact hsrc (append_id_cancel src "driver" (h : src ++ "_id" = "driver" ++ "_id"))
  have hskfn : src ++ "_id" ≠ "full_name" := append_id_ne_of_suffix _ _ (by decide)
  have hskname : src ++ "_id" ≠ "name" := append_id_ne_of_suffix _ _ (by decide)
  refine ⟨?_, ?_, ?_⟩
  · apply rget_of_rfind_some
    unfold rlit
    rw [List.foldl_cons]
    dsimp only
    rw [rfind_foldl_rset_ne _ _ "driver_id" ?_]
    · exact rfind_rset_self [] "driver_id" (PyVal.int cnt)
    · intro p hp
      fin_cases hp <;> first
        | exact hskid
        | simp
  · apply rget_of_rfind_some
    unfold rlit
    rw [List.foldl_cons, List.foldl_cons, List.foldl_cons, List.foldl_cons, List.foldl_cons]
    dsimp only
    rw [rfind_foldl_rset_ne _ _ "full_name" ?_]
    · exact rfind_rset_self _ "full_name" dn
    · intro p hp
      fin_cases hp <;> first
        | exact hskfn
        | simp
  · unfold rlit
    rw [rfind_foldl_rset_ne _ _ "name" ?_]
    · rfl
    · intro p hp
      fin_cases hp <;> first
        | exact hskname
        | simp

theorem driverCreate_spec (src : String) (cnt : ℤ) (r : Record) (s : String)
    (hsrc : src ≠ "driver") (hs : s ≠ "") (hnv : nameVal r = PyVal.str s) (hcnt : 1 ≤ cnt) :
    ∃ nd, driverCreate src cnt r = .ok nd ∧ invD nd ∧ matchW r nd := by
  unfold driverCreate
  rw [hnv]
  simp only [asStr, Bind.bind, Except.bind]
  cases hex : extractNameParts s with
  | mk f0 s0 =>
    dsimp only
    obtain ⟨hfid, hffn, hfname⟩ := driverCreate_fields src cnt
      (pyOr (rget r "driver_ref") (.str ("driver_" ++ toString cnt)))
      (codeVal r) (numberVal r) (rget r "nationality")
      (pyOr (rget r "date_of_birth") (rget r "dob"))
      (pyOr (rget r "id") (rget r "driver_id"))
      (PyVal.str s) f0 s0 hsrc
    refine ⟨_, rfl, ⟨?_, ⟨s, hs, ?_⟩, ?_⟩, ?_⟩
    · rw [hfid]
      have : cnt ≠ 0 := by omega
      simp [truthy, this]
    · rw [hffn]
    · exact hfname
    · refine .inr ⟨1, ?_, by norm_num [simThreshold]⟩
      have hname0 := rget_of_rfind_none _ "name" hfname
      have hnd : nameVal (rlit
          [("driver_id", PyVal.int cnt),
           ("driver_ref", pyOr (rget r "driver_ref") (.str ("driver_" ++ toString cnt))),
           ("forename", PyVal.str f0),
           ("surname", PyVal.str s0),
           ("full_name", PyVal.str s),
           ("code", codeVal r),
           ("number", numberVal r),
           ("nationality", rget r "nationality"),
           ("date_of_birth", pyOr (rget r "date_of_birth") (rget r "dob")),
           (src ++ "_id", pyOr (rget r "id") (rget r "driver_id"))]) = PyVal.str s := by
        unfold nameVal
        rw [hname0, hffn]
        simp [pyOr, truthy, hs]
      rw [hnv, hnd]
      exact calcSim_self s

/-- One driver step over a well-formed state: it never raises, preserves
the invariant, can only grow the unified list, establishes a re-match
witness for the processed record, preserves all existing witnesses, and
keeps the length unchanged whenever the record already had a witness. -/
theorem driverStep_spec (src : String) (st : DState) (r : Record)
    (hsrc : src ≠ "driver") (hst : invS st) (hr : goodRecB r = true) :
    ∃ st', driverStep src st r = .ok st' ∧ invS st' ∧
      st.1.length ≤ st'.1.length ∧
      (∃ u' ∈ st'.1, matchW r u') ∧
      (∀ r₀ u, u ∈ st.1 → matchW r₀ u → ∃ u' ∈ st'.1, matchW r₀ u') ∧
      ((∃ u ∈ st.1, matchW r u) → st'.1.length = st.1.length) := by
  obtain ⟨un, cnt⟩ := st
  have hinvs : ∀ u ∈ un, invD u := hst.1
  obtain ⟨m, hm, hm1, hm2⟩ := matchDriver_ok r un hinvs hr
  unfold driverStep
  dsimp only
  rw [hm]
  simp only [Bind.bind, Except.bind]
  by_cases ht : truthy m = true
  · rw [if_pos ht]
    have hpres : ∀ r₀ u, u ∈ un → matchW r₀ u →
        ∃ u' ∈ updateFirst (fun u => pyEq (rget u "driver_id") m) (driverUpd src r) un,
          matchW r₀ u' := by
      intro r₀ u hu hw
      obtain ⟨u', hu', himp⟩ := updateFirst_mem
        (R := fun u u' => matchW r₀ u → matchW r₀ u')
        (fun u => pyEq (rget u "driver_id") m) (driverUpd src r) un
        (fun _ _ h => h)
        (fun u hu hwu =>
          matchW_congr r₀ u (driverUpd src r u)
            (driverUpd_fields src r u hsrc (hinvs u hu)).1
            (driverUpd_fields src r u hsrc (hinvs u hu)).2.1
            (driverUpd_fields src r u hsrc (hinvs u hu)).2.2.1 hwu)
        u hu
      exact ⟨u', hu', himp hw⟩
    refine ⟨_, rfl, ⟨?_, hst.2⟩, ?_, ?_, hpres, ?_⟩
    · exact updateFirst_all _ _ un hinvs
        (fun u hu hinv =>
          invD_congr u (driverUpd src r u)
            (driverUpd_fields src r u hsrc hinv).2.1
            (driverUpd_fields src r u hsrc hinv).2.2.1
            (driverUpd_fields src r u hsrc hinv).2.2.2 hinv)
    · show un.length ≤ (updateFirst _ _ un).length
      rw [length_updateFirst]
    · obtain ⟨u₀, hu₀, hw₀⟩ := hm1 ht
      exact hpres r u₀ hu₀ hw₀
    · intro _
      show (updateFirst _ _ un).length = un.length
      rw [length_updateFirst]
  · rw [if_neg ht]
    obtain ⟨s, hs, hnv⟩ := goodRec_nameVal r hr
    obtain ⟨nd, hc, hinvnd, hwnd⟩ := driverCreate_spec src cnt r s hsrc hs hnv hst.2
    rw [hc]
    simp only [Bind.bind, Except.bind, pure, Except.pure]
    refine ⟨_, rfl, ⟨?_, ?_⟩, ?_, ?_, ?_, ?_⟩
    · intro u hu
      cases List.mem_append.mp hu with
      | inl h => exact hinvs u h
      | inr h =>
        rw [List.mem_singleton.mp h]
        exact hinvnd
    · have := hst.2
      omega
    · simp
    · exact ⟨nd, List.mem_append.mpr (.inr (List.mem_singleton.mpr rfl)), hwnd⟩
    · intro r₀ u hu hw
      exact ⟨u, List.mem_append.mpr (.inl hu), hw⟩
    · intro hex
      exact absurd (hm2 hex) ht

/-- The per-source record loop, specified like driverStep_spec. -/
theorem foldRecords_spec (src : String) (rs : List Record) (st : DState)
    (hsrc : src ≠ "driver") (hst : invS st) (hrs : ∀ r ∈ rs, goodRecB r = true) :
    ∃ st', rs.foldlM (driverStep src) st = .ok st' ∧ invS st' ∧
      st.1.length ≤ st'.1.length ∧
      (∀ r ∈ rs, ∃ u' ∈ st'.1, matchW r u') ∧
      (∀ r₀ u, u ∈ st.1 → matchW r₀ u → ∃ u' ∈ st'.1, matchW r₀ u') ∧
      ((∀ r ∈ rs, ∃ u ∈ st.1, matchW r u) → st'.1.length = st.1.length) := by
  induction rs generalizing st with
  | nil =>
    refine ⟨st, rfl, hst, le_refl _, ?_, ?_, fun _ => rfl⟩
    · intro r hr
      exact absurd hr (List.not_mem_nil r)
    · intro r₀ u hu hw
      exact ⟨u, hu, hw⟩
  | cons r rs ih =>
    obtain ⟨st₁, hstep, hinv₁, hlen₁, hwit₁, hpres₁, hlenEq₁⟩ :=
      driverStep_spec src st r hsrc hst (hrs r (List.mem_cons_self _ _))
    obtain ⟨st₂, hfold, hinv₂, hlen₂, hwit₂, hpres₂, hlenEq₂⟩ :=
      ih st₁ hinv₁ (fun r' hr' => hrs r' (List.mem_cons_of_mem _ hr'))
    refine ⟨st₂, ?_, hinv₂, le_trans hlen₁ hlen₂, ?_, ?_, ?_⟩
    · simp only [List.foldlM, hstep, Bind.bind, Except.bind]
      exact hfold
    · intro r' hr'
      cases List.mem_cons.mp hr' with
      | inl heq =>
        subst heq
        obtain ⟨u', hu', hw'⟩ := hwit₁
        exact hpres₂ r' u' hu' hw'
      | inr hmem => exact hwit₂ r' hmem
    · intro r₀ u hu hw
      obtain ⟨u₁, hu₁, hw₁⟩ := hpres₁ r₀ u hu hw
      exact hpres₂ r₀ u₁ hu₁ hw₁
    · intro hall
      have h1 : st₁.1.length = st.1.length :=
        hlenEq₁ (hall r (List.mem_cons_self _ _))
      have hallrs : ∀ r' ∈ rs, ∃ u ∈ st₁.1, matchW r' u := by
        intro r' hr'
        obtain ⟨u, hu, hw⟩ := hall r' (List.mem_cons_of_mem _ hr')
        exact hpres₁ r' u hu hw
      have h2 := hlenEq₂ hallrs
      omega

/-- The whole create_unified_driver loop, specified like
driverStep_spec. -/
theorem createUnifiedFrom_spec (bs : List (String × List Record)) (st : DState)
    (hbs : batchGoodB bs = true) (hst : invS st) :
    ∃ st', createUnifiedFrom st bs = .ok st' ∧ invS st' ∧
      st.1.length ≤ st'.1.length ∧
      (∀ p ∈ bs, ∀ r ∈ p.2, ∃ u' ∈ st'.1, matchW r u') ∧
      (∀ r₀ u, u ∈ st.1 → matchW r₀ u → ∃ u' ∈ st'.1, matchW r₀ u') ∧
      ((∀ p ∈ bs, ∀ r ∈ p.2, ∃ u ∈ st.1, matchW r u) → st'.1.length = st.1.length) := by
  induction bs generalizing st with
  | nil =>
    refine ⟨st, rfl, hst, le_refl _, ?_, ?_, fun _ => rfl⟩
    · intro p hp
      exact absurd hp (List.not_mem_nil p)
    · intro r₀ u hu hw
      exact ⟨u, hu, hw⟩
  | cons p ps ih =>
    simp only [batchGoodB, List.all_cons, Bool.and_eq_true] at hbs
    have hsrc : p.1 ≠ "driver" := by
      have := hbs.1.1
      simpa using this
    have hgoodrecs : ∀ r ∈ p.2, goodRecB r = true := by
      intro r hr
      have := hbs.1.2
      rw [List.all_eq_true] at this
      exact this r hr
    have hps : batchGoodB ps = true := hbs.2
    obtain ⟨st₁, hstep, hinv₁, hlen₁, hwit₁, hpres₁, hlenEq₁⟩ :=
      foldRecords_spec p.1 p.2 st hsrc hst hgoodrecs
    obtain ⟨st₂, hfold, hinv₂, hlen₂, hwit₂, hpres₂, hlenEq₂⟩ := ih st₁ hps hinv₁
    refine ⟨st₂, ?_, hinv₂, le_trans hlen₁ hlen₂, ?_, ?_, ?_⟩
    · unfold createUnifiedFrom at *
      simp only [List.foldlM, hstep, Bind.bind, Except.bind]
      exact hfold
    · intro q hq r hr
      cases List.mem_cons.mp hq with
      | inl heq =>
        subst heq
        obtain ⟨u', hu', hw'⟩ := hwit₁ r hr
        exact hpres₂ r u' hu' hw'
      | inr hmem => exact hwit₂ q hmem r hr
    · intro r₀ u hu hw
      obtain ⟨u₁, hu₁, hw₁⟩ := hpres₁ r₀ u hu hw
      exact hpres₂ r₀ u₁ hu₁ hw₁
    · intro hall
      have h1 : st₁.1.length = st.1.length :=
        hlenEq₁ (hall p (List.mem_cons_self _ _))
      have hallps : ∀ q ∈ ps, ∀ r ∈ q.2, ∃ u ∈ st₁.1, matchW r u := by
        intro q hq r hr
        obtain ⟨u, hu, hw⟩ := hall q (List.mem_cons_of_mem _ hq) r hr
        exact hpres₁ r u hu hw
      have h2 := hlenEq₂ hallps
      omega

/-- Claim C8 as amended: for a batch in which every record has a nonempty
string name and no source is named "driver", re-running
create_unified_driver's loops over the same batch starting from the
first run's unified state creates no new unified drivers — every record
re-matches an existing driver instead of allocating a new driver_id. -/
theorem C8_idempotent_good_names (bs : List (String × List Record)) (st₁ : DState)
    (hgood : batchGoodB bs = true)
    (hrun : createUnifiedFrom ([], 1) bs = .ok st₁) :
    ∃ st₂, createUnifiedFrom st₁ bs = .ok st₂ ∧ st₂.1.length = st₁.1.length := by
  have h0 : invS ([], 1) :=
    ⟨fun u hu => absurd hu (List.not_mem_nil u), le_refl 1⟩
  obtain ⟨st₁', h1, hinv₁, _, hwit, _, _⟩ := createUnifiedFrom_spec bs ([], 1) hgood h0
  rw [hrun] at h1
  injection h1 with h1'
  subst h1'
  obtain ⟨st₂, h2, _, _, _, _, hlen⟩ := createUnifiedFrom_spec bs st₁ hgood hinv₁
  exact ⟨st₂, h2, hlen (fun p hp r hr => hwit p hp r hr)⟩

/-- Claim C8 counterexample: a record with no extractable name is
re-created on every run — the first run over the single-record batch
yields one unified driver, and re-running from that state yields two. -/
theorem C8_no_name_duplicate_cex :
    (createUnifiedFrom ([], 1) [("ergast", [[]])]).map (fun st => st.1.length) = .ok 1 ∧
    (Except.bind (createUnifiedFrom ([], 1) [("ergast", [[]])])
      (fun st => createUnifiedFrom st [("ergast", [[]])])).map (fun st => st.1.length)
      = .ok 2 := by
  constructor
  · with_unfolding_all rfl
  · with_unfolding_all rfl

/-- Witness for C8_idempotent_good_names at a concrete one-record
batch. -/
theorem C8_idempotent_witness :
    ∃ st₂, createUnifiedFrom
        ([[("driver_id", PyVal.int 1), ("driver_ref", PyVal.str "driver_1"),
           ("forename", PyVal.str "Lewis"), ("surname", PyVal.str "Hamilton"),
           ("full_name", PyVal.str "Lewis Hamilton"), ("code", PyVal.none),
           ("number", PyVal.none), ("nationality", PyVal.none),
           ("date_of_birth", PyVal.none), ("ergast_id", PyVal.none)]], 2)
        [("ergast", [[("name", PyVal.str "Lewis Hamilton")]])] = .ok st₂ ∧
      st₂.1.length = ([[("driver_id", PyVal.int 1), ("driver_ref", PyVal.str "driver_1"),
           ("forename", PyVal.str "Lewis"), ("surname", PyVal.str "Hamilton"),
           ("full_name", PyVal.str "Lewis Hamilton"), ("code", PyVal.none),
           ("number", PyVal.none), ("nationality", PyVal.none),
           ("date_of_birth", PyVal.none), ("ergast_id", PyVal.none)] ] : List Record).length :=
  C8_idempotent_good_names [("ergast", [[("name", PyVal.str "Lewis Hamilton")]])]
    ([[("driver_id", PyVal.int 1), ("driver_ref", PyVal.str "driver_1"),
       ("forename", PyVal.str "Lewis"), ("surname", PyVal.str "Hamilton"),
       ("full_name", PyVal.str "Lewis Hamilton"), ("code", PyVal.none),
       ("number", PyVal.none), ("nationality", PyVal.none),
       ("date_of_birth", PyVal.none), ("ergast_id", PyVal.none)]], 2)
    (by with_unfolding_all rfl) (by with_unfolding_all rfl)

end F1







